import Mathlib

/-
Verification of the `brent-search` scalar-minimization library.

The embedding models the Python sources over exact rationals (ℚ):

* `src/brent_search/_bracket.py` is translated definition by definition
  (`bracket`, `_sort`, `_boundary_equal`, `_boundary_inside`,
  `_ensure_boundary`, `_tol`, `_initialize_interval`,
  `_resolve_equal_fvalue`).
* The search bounds `a`, `b` default to `-inf` / `+inf` in the source; they
  are modelled as `Option ℚ`, where `none` stands for the infinite endpoint
  of the corresponding side.
* Python `assert` statements are modelled by returning `none` (the whole
  call aborts with no result), everything else returns `some` result.
* The evaluation counter of `minimize` (`func.nfev` in
  `src/brent_search/optimize.py`) is modelled by threading a state
  `(counter, trace)` through every call of the objective: `fcall` bumps the
  counter by one and records the argument, exactly once per evaluation.
* The `while` loop of `bracket` is modelled by structural recursion on the
  remaining iteration budget (`maxiter - nit` in the source), which is
  faithful because the loop condition `nit < maxiter` bounds the number of
  iterations by `maxiter`.
-/

namespace BrentSearch

/-- Evaluation state: number of objective evaluations so far, and the list of
arguments the objective has been evaluated at (in order). -/
abbrev ESt := ℕ × List ℚ

/-- Model of one call of the wrapped objective: evaluate `f`, bump the
counter once and record the argument (`func.nfev += 1; return f(x)` in
`optimize.py`). -/
def fcall (f : ℚ → ℚ) (x : ℚ) (st : ESt) : ℚ × ESt :=
  (f x, (st.1 + 1, st.2 ++ [x]))

/-- The six-tuple `(x0, x1, x2, f0, f1, f2)` returned by `bracket`. -/
structure Tup6 where
  x0 : ℚ
  x1 : ℚ
  x2 : ℚ
  f0 : ℚ
  f1 : ℚ
  f2 : ℚ
deriving DecidableEq, Repr

/-- `a ≤ x` for a lower bound that may be `-inf` (`none`). -/
def lbLe : Option ℚ → ℚ → Prop
  | none, _ => True
  | some av, x => av ≤ x

/-- `a < x` for a lower bound that may be `-inf` (`none`). -/
def lbLt : Option ℚ → ℚ → Prop
  | none, _ => True
  | some av, x => av < x

/-- `x ≤ b` for an upper bound that may be `+inf` (`none`). -/
def ubLe (x : ℚ) : Option ℚ → Prop
  | none => True
  | some bv => x ≤ bv

/-- `x < b` for an upper bound that may be `+inf` (`none`). -/
def ubLt (x : ℚ) : Option ℚ → Prop
  | none => True
  | some bv => x < bv

/-- `a ≤ b` between the two (possibly infinite) bounds. -/
def abLe : Option ℚ → Option ℚ → Prop
  | some av, some bv => av ≤ bv
  | _, _ => True

instance (a : Option ℚ) (x : ℚ) : Decidable (lbLe a x) :=
  match a with
  | none => isTrue trivial
  | some av => inferInstanceAs (Decidable (av ≤ x))

instance (a : Option ℚ) (x : ℚ) : Decidable (lbLt a x) :=
  match a with
  | none => isTrue trivial
  | some av => inferInstanceAs (Decidable (av < x))

instance (x : ℚ) (b : Option ℚ) : Decidable (ubLe x b) :=
  match b with
  | none => isTrue trivial
  | some bv => inferInstanceAs (Decidable (x ≤ bv))

instance (x : ℚ) (b : Option ℚ) : Decidable (ubLt x b) :=
  match b with
  | none => isTrue trivial
  | some bv => inferInstanceAs (Decidable (x < bv))

instance (a b : Option ℚ) : Decidable (abLe a b) :=
  match a, b with
  | none, _ => isTrue trivial
  | some _, none => isTrue trivial
  | some av, some bv => inferInstanceAs (Decidable (av ≤ bv))

/-- `min x b` where `b` may be `+inf` (`min` against `+inf` is the identity). -/
def minUB (x : ℚ) : Option ℚ → ℚ
  | none => x
  | some bv => min x bv

/-- `max x a` where `a` may be `-inf` (`max` against `-inf` is the identity). -/
def maxLB (x : ℚ) : Option ℚ → ℚ
  | none => x
  | some av => max x av

/-- `_tol(x, rtol, atol) = abs(x) * rtol + atol` (`_bracket.py`). -/
def tol (x rtol atol : ℚ) : ℚ := |x| * rtol + atol

/-- `_boundary_equal(x, a, b) = (x == a or x == b)`; a finite `x` never
equals an infinite endpoint. -/
def boundary_equal (x : ℚ) (a b : Option ℚ) : Prop :=
  a = some x ∨ b = some x

instance (x : ℚ) (a b : Option ℚ) : Decidable (boundary_equal x a b) :=
  inferInstanceAs (Decidable (_ ∨ _))

/-- `_boundary_inside(x, a, b) = (a < x < b)`. -/
def boundary_inside (x : ℚ) (a b : Option ℚ) : Prop :=
  lbLt a x ∧ ubLt x b

instance (x : ℚ) (a b : Option ℚ) : Decidable (boundary_inside x a b) :=
  inferInstanceAs (Decidable (_ ∧ _))

/-- `_ensure_boundary(x, a, b) = max(min(x, b), a)`. -/
def ensure_boundary (x : ℚ) (a b : Option ℚ) : ℚ :=
  maxLB (minUB x b) a

/-- `min(max(0, a), b)`: the default starting point when neither `x0` nor
`x1` is supplied (`_initialize_interval`, line 140). -/
def clampZero (a b : Option ℚ) : ℚ :=
  minUB (maxLB 0 a) b

/-- The comparison `x0 - a > b - x0` of `_initialize_interval` under IEEE
infinity semantics: `inf > inf` is false, `inf > finite` is true,
`finite > inf` is false. -/
def leftRoomGreater (x0 : ℚ) : Option ℚ → Option ℚ → Bool
  | none, none => false
  | none, some _ => true
  | some _, none => false
  | some av, some bv => decide (bv - x0 < x0 - av)

/-- Derivation of the second starting point when only one point is known
(`_initialize_interval`, lines 146-152): step `10 * gfactor * tol(x0)` away
from `x0` towards the side with more room, clamped to the bounds. -/
def derive_second (x0 : ℚ) (a b : Option ℚ) (gfactor rtol atol : ℚ) : ℚ :=
  if leftRoomGreater x0 a b then maxLB (x0 - 10 * gfactor * tol x0 rtol atol) a
  else minUB (x0 + 10 * gfactor * tol x0 rtol atol) b

/-- `_initialize_interval(x0, x1, a, b, gfactor, rtol, atol)`.  Mirrors the
Python `sorted`-based case split: with both points the pair is sorted
ascending, with none the start is `min(max(0, a), b)`; when `x1` is given
but `x0` is not, the source sets `x0 = x1` and keeps `x1`, so both points
coincide. -/
def init_interval (x0 x1 : Option ℚ) (a b : Option ℚ) (gfactor rtol atol : ℚ) : ℚ × ℚ :=
  match x0, x1 with
  | none, none =>
    (clampZero a b, derive_second (clampZero a b) a b gfactor rtol atol)
  | some u, none => (u, derive_second u a b gfactor rtol atol)
  | none, some v => (v, v)
  | some u, some v => (min u v, max u v)

/-- `_sort(x0, x1, x2, f0, f1, f2)`: reverse the triple when `x0 > x2`. -/
def sortTriple (t : Tup6) : Tup6 :=
  if t.x2 < t.x0 then ⟨t.x2, t.x1, t.x0, t.f2, t.f1, t.f0⟩ else t

/-- `_resolve_equal_fvalue(f, x0, x1, f0, f1)`: bisect exactly
(`x2 = x0/2 + x1/2`), evaluate the midpoint, swap it into the middle slot,
and return exit code `5` unless the triple brackets a minimum. -/
def resolve_equal_fvalue (f : ℚ → ℚ) (x0 x1 f0 f1 : ℚ) (st : ESt) : (Tup6 × ℕ) × ESt :=
  let xm := x0 / 2 + x1 / 2
  let ev := fcall f xm st
  ((sortTriple ⟨x0, xm, x1, f0, ev.1, f1⟩,
    if ¬ (f0 > ev.1 ∧ ev.1 < f1) then 5 else 1), ev.2)

/-- The candidate point of one expansion-loop iteration before boundary
clamping: `x2 + gfactor * (x2 - x1)` (`bracket`, line 101). -/
def step_candidate (gfactor x1 x2 : ℚ) : ℚ :=
  x2 + gfactor * (x2 - x1)

/-- The `while` loop of `bracket` (lines 97-105), by recursion on the
remaining iteration budget.  Returns the final state and the number of
iterations performed; the loop body slides the window `(x0,x1,x2)` forward
by one clamped geometric step and evaluates `f` there once. -/
def bloopE (f : ℚ → ℚ) (gfactor : ℚ) (a b : Option ℚ) :
    ℕ → Tup6 → ESt → (Tup6 × ℕ) × ESt
  | 0, s, st => ((s, 0), st)
  | n + 1, s, st =>
    if (s.f0 > s.f1 ∧ s.f1 < s.f2) ∨ ¬ boundary_inside s.x2 a b then ((s, 0), st)
    else
      let xt := ensure_boundary (step_candidate gfactor s.x1 s.x2) a b
      let ev := fcall f xt st
      let r := bloopE f gfactor a b n ⟨s.x1, s.x2, xt, s.f1, s.f2, ev.1⟩ ev.2
      ((r.1.1, r.1.2 + 1), r.2)

/-- The third point tried before the expansion loop:
`_ensure_boundary(x1 + (x1 - x0) * gfactor, a, b)` (`bracket`, line 91). -/
def third_point (x0 x1 : ℚ) (a b : Option ℚ) (gfactor : ℚ) : ℚ :=
  ensure_boundary (x1 + (x1 - x0) * gfactor) a b

/-- Body of `bracket` from line 73 on, once the two starting points have
been evaluated and reordered so that `f0 ≥ f1`.  Returns `none` when one of
the source's `assert`s (lines 80-83) fails. -/
def bracketMain (f : ℚ → ℚ) (x0 x1 f0 f1 : ℚ) (a b : Option ℚ)
    (gfactor rtol atol : ℚ) (maxiter : ℕ) (st : ESt) : Option (Tup6 × ℕ) × ESt :=
  if |x0 - x1| < 2 * tol x0 rtol atol then
    (some (sortTriple ⟨x0, x1, x1, f0, f1, f1⟩, 3), st)
  else if f0 = f1 then
    let r := resolve_equal_fvalue f x0 x1 f0 f1 st
    (some r.1, r.2)
  else if lbLe a x0 ∧ ubLe x0 b ∧ lbLe a x1 ∧ ubLe x1 b ∧ x0 ≠ x1 ∧ f0 ≠ f1 then
    if boundary_equal x1 a b then
      (some (sortTriple ⟨x0, x1, x1, f0, f1, f1⟩, 2), st)
    else
      let x2 := third_point x0 x1 a b gfactor
      let ev := fcall f x2 st
      if f1 = ev.1 then
        let r := resolve_equal_fvalue f x1 x2 f1 ev.1 ev.2
        (some r.1, r.2)
      else
        let r := bloopE f gfactor a b maxiter ⟨x0, x1, x2, f0, f1, ev.1⟩ ev.2
        (some (sortTriple r.1.1,
          if r.1.1.f0 > r.1.1.f1 ∧ r.1.1.f1 < r.1.1.f2 then 1
          else if r.1.2 = maxiter then 4 else 2), r.2)
  else (none, st)

/-- `bracket(f, x0, x1, a, b, gfactor, rtol, atol, maxiter)` with the
evaluation state threaded through.  The two leading `assert`s
(`gfactor > 1`, `maxiter > 0`) abort before anything is evaluated. -/
def bracketE (f : ℚ → ℚ) (x0 x1 : Option ℚ) (a b : Option ℚ)
    (gfactor rtol atol : ℚ) (maxiter : ℕ) (st : ESt) : Option (Tup6 × ℕ) × ESt :=
  if 1 < gfactor ∧ 0 < maxiter then
    let p := init_interval x0 x1 a b gfactor rtol atol
    let e0 := fcall f p.1 st
    let e1 := fcall f p.2 e0.2
    if e0.1 < e1.1 then bracketMain f p.2 p.1 e1.1 e0.1 a b gfactor rtol atol maxiter e1.2
    else bracketMain f p.1 p.2 e0.1 e1.1 a b gfactor rtol atol maxiter e1.2
  else (none, st)

/-- Public `bracket`: runs with a fresh evaluation state and returns
`((x0, x1, x2, f0, f1, f2), ecode)`, or `none` if an `assert` fired. -/
def bracket (f : ℚ → ℚ) (x0 x1 : Option ℚ) (a b : Option ℚ)
    (gfactor rtol atol : ℚ) (maxiter : ℕ) : Option (Tup6 × ℕ) :=
  (bracketE f x0 x1 a b gfactor rtol atol maxiter (0, [])).1

/-- The source's default tolerance `1.4901161193847656e-08`: as a double
this literal is exactly `2 ^ (-26)`. -/
def bracket_eps : ℚ := 1 / 67108864

/-- Modelled from the spec: the golden-section ratio "≈0.3819660" used by
the Brent refiner (the refiner module `brent.py` is imported by
`optimize.py` but is not part of the sources; spec section 4.2). -/
def cgold : ℚ := 3819660 / 10000000

/-- Modelled from the spec: the working state of the Brent refiner
(spec section 4.2) — current bracket `[a, b]`, best point `x`, the two
next-best points `w`, `v`, and the last two step lengths `d`, `e`. -/
structure BrentSt where
  a : ℚ
  b : ℚ
  x : ℚ
  fx : ℚ
  v : ℚ
  fv : ℚ
  w : ℚ
  fw : ℚ
  d : ℚ
  e : ℚ

/-- Modelled from the spec: the step proposal of one Brent iteration — a
parabolic-interpolation step through `(x, fx)`, `(v, fv)`, `(w, fw)`,
accepted only when it stays strictly inside the bracket, its magnitude is
below half of the step before last, and the fitted denominator is
nondegenerate; otherwise a golden-section step into the larger
sub-interval.  Returns the new `(d, e)` pair. -/
def brentDE (rtol atol : ℚ) (s : BrentSt) : ℚ × ℚ :=
  let xm := (s.a + s.b) / 2
  let tol1 := tol s.x rtol atol
  if tol1 < |s.e| then
    let r := (s.x - s.w) * (s.fx - s.fv)
    let q := (s.x - s.v) * (s.fx - s.fw)
    let p0 := (s.x - s.v) * q - (s.x - s.w) * r
    let q1 := 2 * (q - r)
    let p := if 0 < q1 then -p0 else p0
    let qa := |q1|
    if |p| < |qa * s.e / 2| ∧ qa * (s.a - s.x) < p ∧ p < qa * (s.b - s.x) then
      (p / qa, s.d)
    else
      let eg := if s.x < xm then s.b - s.x else s.a - s.x
      (cgold * eg, eg)
  else
    let eg := if s.x < xm then s.b - s.x else s.a - s.x
    (cgold * eg, eg)

/-- Modelled from the spec: the trial point of one Brent iteration — `x + d`,
but never closer than `tol1` to `x` (nudged out by `tol1` otherwise). -/
def brentTrial (rtol atol : ℚ) (s : BrentSt) : ℚ :=
  let tol1 := tol s.x rtol atol
  let d := (brentDE rtol atol s).1
  if tol1 ≤ |d| then s.x + d
  else if 0 < d then s.x + tol1 else s.x - tol1

/-- Modelled from the spec: the bookkeeping update of one Brent iteration —
shrink `(a, b)` around the best point and re-rank `x`, `w`, `v` by function
value after evaluating `fu` at the trial point `u`. -/
def brentUpdate (rtol atol : ℚ) (s : BrentSt) (u fu : ℚ) : BrentSt :=
  let de := brentDE rtol atol s
  if fu ≤ s.fx then
    let a' := if s.x ≤ u then s.x else s.a
    let b' := if s.x ≤ u then s.b else s.x
    ⟨a', b', u, fu, s.w, s.fw, s.x, s.fx, de.1, de.2⟩
  else
    let a' := if u < s.x then u else s.a
    let b' := if u < s.x then s.b else u
    if fu ≤ s.fw ∨ s.w = s.x then
      ⟨a', b', s.x, s.fx, s.w, s.fw, u, fu, de.1, de.2⟩
    else if fu ≤ s.fv ∨ s.v = s.x ∨ s.v = s.w then
      ⟨a', b', s.x, s.fx, u, fu, s.w, s.fw, de.1, de.2⟩
    else
      ⟨a', b', s.x, s.fx, s.v, s.fv, s.w, s.fw, de.1, de.2⟩

/-- Modelled from the spec: the main loop of the Brent refiner (spec
section 4.2, the module itself is missing from the sources).  Each
iteration checks the convergence criterion
`|x - midpoint| ≤ 2 tol1 - (b-a)/2`, otherwise evaluates `f` exactly once
at the trial point and updates the bookkeeping; runs at most `maxiter`
iterations. -/
def brentLoop (f : ℚ → ℚ) (rtol atol : ℚ) : ℕ → BrentSt → ESt → (ℚ × ℚ) × ESt
  | 0, s, st => ((s.x, s.fx), st)
  | n + 1, s, st =>
    if |s.x - (s.a + s.b) / 2| ≤ 2 * tol s.x rtol atol - (s.b - s.a) / 2 then
      ((s.x, s.fx), st)
    else
      let u := brentTrial rtol atol s
      let ev := fcall f u st
      brentLoop f rtol atol n (brentUpdate rtol atol s u ev.1) ev.2

/-- Modelled from the spec: entry point of the Brent refiner,
`brent(f, a, b, fa, fb, xm, fm, rtol, atol, maxiter)` (spec section 4.2).
Starts from the bracket `(a, xm, b)` with best point `xm` and returns the
refined `(x_min, f_min)`. -/
def brentE (f : ℚ → ℚ) (a b fa fb xm fm rtol atol : ℚ) (maxiter : ℕ)
    (st : ESt) : (ℚ × ℚ) × ESt :=
  brentLoop f rtol atol maxiter ⟨min a b, max a b, xm, fm, xm, fm, xm, fm, 0, 0⟩ st

/-- `minimize` of `optimize.py` with the evaluation state threaded through:
run `bracket`, discard its exit code, feed the triple to the Brent refiner
(`brent(func, x0, x2, f0, f2, x1, f1, rtol, atol, maxiter)`); a failing
`assert` inside `bracket` aborts the whole call. -/
def minimizeE (f : ℚ → ℚ) (x0 x1 : Option ℚ) (a b : Option ℚ)
    (gfactor rtol atol : ℚ) (maxiter : ℕ) (st : ESt) : Option (ℚ × ℚ) × ESt :=
  let br := bracketE f x0 x1 a b gfactor rtol atol maxiter st
  match br.1 with
  | none => (none, br.2)
  | some (t, _) =>
    let (r, st'') := brentE f t.x0 t.x2 t.f0 t.f2 t.x1 t.f1 rtol atol maxiter br.2
    (some r, st'')

/-- Public `minimize`: returns `(x_min, f_min, n_evaluations)` where
`n_evaluations` is the final value of the wrapped counter (`func.nfev`). -/
def minimize (f : ℚ → ℚ) (x0 x1 : Option ℚ) (a b : Option ℚ)
    (gfactor rtol atol : ℚ) (maxiter : ℕ) : Option (ℚ × ℚ × ℕ) :=
  let m := minimizeE f x0 x1 a b gfactor rtol atol maxiter (0, [])
  match m.1 with
  | none => none
  | some r => some (r.1, r.2, m.2.1)

/-! ### Auxiliary predicates used by the verification -/

/-- One state extends another by the list of extra evaluation points. -/
def StExt (st st' : ESt) : Prop :=
  ∃ l : List ℚ, st' = (st.1 + l.length, st.2 ++ l)

/-- The returned triple brackets a minimum: `f0 > f1 < f2`. -/
def validT (t : Tup6) : Prop := t.f1 < t.f0 ∧ t.f1 < t.f2

/-- The abscissas of the triple are strictly monotone, in one of the two
directions. -/
def Ordered3 (t : Tup6) : Prop :=
  (t.x0 < t.x1 ∧ t.x1 < t.x2) ∨ (t.x2 < t.x1 ∧ t.x1 < t.x0)

/-- Invariant of the expansion loop: the three abscissas are strictly
monotone and inside the bounds. -/
def LoopInv (a b : Option ℚ) (s : Tup6) : Prop :=
  (lbLe a s.x0 ∧ ubLe s.x0 b) ∧ (lbLe a s.x1 ∧ ubLe s.x1 b) ∧
  (lbLe a s.x2 ∧ ubLe s.x2 b) ∧ Ordered3 s

/-- The strictly convex quadratic used as a concrete objective. -/
def fquad : ℚ → ℚ := fun x => (x - 9 / 10) ^ 2

/-! ### Basic lemmas about the evaluation state -/

theorem stExt_refl (st : ESt) : StExt st st :=
  ⟨[], by simp⟩

theorem stExt_trans {s t u : ESt} (h1 : StExt s t) (h2 : StExt t u) : StExt s u := by
  obtain ⟨l, rfl⟩ := h1
  obtain ⟨m, rfl⟩ := h2
  exact ⟨l ++ m, by simp [Nat.add_assoc]⟩

theorem stExt_fcall (f : ℚ → ℚ) (x : ℚ) (st : ESt) : StExt st (fcall f x st).2 :=
  ⟨[x], rfl⟩

theorem stExt_count_le {s t : ESt} (h : StExt s t) : s.1 ≤ t.1 := by
  obtain ⟨l, rfl⟩ := h
  exact Nat.le_add_right _ _

theorem stExt_balanced {s t : ESt} (h : StExt s t) (hb : s.1 = s.2.length) :
    t.1 = t.2.length := by
  obtain ⟨l, rfl⟩ := h
  simp [hb]

theorem stExt_resolve (f : ℚ → ℚ) (x0 x1 f0 f1 : ℚ) (st : ESt) :
    StExt st (resolve_equal_fvalue f x0 x1 f0 f1 st).2 :=
  ⟨[x0 / 2 + x1 / 2], rfl⟩

theorem resolve_count (f : ℚ → ℚ) (x0 x1 f0 f1 : ℚ) (st : ESt) :
    (resolve_equal_fvalue f x0 x1 f0 f1 st).2.1 = st.1 + 1 :=
  rfl

/-! ### Shape lemmas for the expansion loop -/

theorem bloopE_succ (f : ℚ → ℚ) (g : ℚ) (a b : Option ℚ) (n : ℕ) (s : Tup6) (st : ESt) :
    bloopE f g a b (n + 1) s st =
      if (s.f0 > s.f1 ∧ s.f1 < s.f2) ∨ ¬ boundary_inside s.x2 a b then ((s, 0), st)
      else
        (((bloopE f g a b n
            ⟨s.x1, s.x2, ensure_boundary (step_candidate g s.x1 s.x2) a b, s.f1, s.f2,
              f (ensure_boundary (step_candidate g s.x1 s.x2) a b)⟩
            (fcall f (ensure_boundary (step_candidate g s.x1 s.x2) a b) st).2).1.1,
          (bloopE f g a b n
            ⟨s.x1, s.x2, ensure_boundary (step_candidate g s.x1 s.x2) a b, s.f1, s.f2,
              f (ensure_boundary (step_candidate g s.x1 s.x2) a b)⟩
            (fcall f (ensure_boundary (step_candidate g s.x1 s.x2) a b) st).2).1.2 + 1),
         (bloopE f g a b n
            ⟨s.x1, s.x2, ensure_boundary (step_candidate g s.x1 s.x2) a b, s.f1, s.f2,
              f (ensure_boundary (step_candidate g s.x1 s.x2) a b)⟩
            (fcall f (ensure_boundary (step_candidate g s.x1 s.x2) a b) st).2).2) :=
  rfl

theorem bloopE_stop (f : ℚ → ℚ) (g : ℚ) (a b : Option ℚ) (s : Tup6)
    (h : (s.f0 > s.f1 ∧ s.f1 < s.f2) ∨ ¬ boundary_inside s.x2 a b) :
    ∀ (n : ℕ) (st : ESt), bloopE f g a b n s st = ((s, 0), st) := by
  intro n st
  cases n with
  | zero => rfl
  | succ m => rw [bloopE_succ, if_pos h]

theorem bloopE_go (f : ℚ → ℚ) (g : ℚ) (a b : Option ℚ) (s : Tup6)
    (h : ¬ ((s.f0 > s.f1 ∧ s.f1 < s.f2) ∨ ¬ boundary_inside s.x2 a b))
    (n : ℕ) (st : ESt) :
    bloopE f g a b (n + 1) s st =
      (((bloopE f g a b n
          ⟨s.x1, s.x2, ensure_boundary (step_candidate g s.x1 s.x2) a b, s.f1, s.f2,
            f (ensure_boundary (step_candidate g s.x1 s.x2) a b)⟩
          (fcall f (ensure_boundary (step_candidate g s.x1 s.x2) a b) st).2).1.1,
        (bloopE f g a b n
          ⟨s.x1, s.x2, ensure_boundary (step_candidate g s.x1 s.x2) a b, s.f1, s.f2,
            f (ensure_boundary (step_candidate g s.x1 s.x2) a b)⟩
          (fcall f (ensure_boundary (step_candidate g s.x1 s.x2) a b) st).2).1.2 + 1),
       (bloopE f g a b n
          ⟨s.x1, s.x2, ensure_boundary (step_candidate g s.x1 s.x2) a b, s.f1, s.f2,
            f (ensure_boundary (step_candidate g s.x1 s.x2) a b)⟩
          (fcall f (ensure_boundary (step_candidate g s.x1 s.x2) a b) st).2).2) := by
  rw [bloopE_succ, if_neg h]

theorem bloopE_nit_le (f : ℚ → ℚ) (g : ℚ) (a b : Option ℚ) :
    ∀ (n : ℕ) (s : Tup6) (st : ESt), (bloopE f g a b n s st).1.2 ≤ n := by
  intro n
  induction n with
  | zero => intro s st; exact Nat.le_refl 0
  | succ m ih =>
    intro s st
    rw [bloopE_succ]
    split
    · exact Nat.zero_le _
    · exact Nat.succ_le_succ (ih _ _)

theorem bloopE_count (f : ℚ → ℚ) (g : ℚ) (a b : Option ℚ) :
    ∀ (n : ℕ) (s : Tup6) (st : ESt),
      (bloopE f g a b n s st).2.1 = st.1 + (bloopE f g a b n s st).1.2 := by
  intro n
  induction n with
  | zero => intro s st; rfl
  | succ m ih =>
    intro s st
    rw [bloopE_succ]
    split
    · rfl
    · simp only [fcall, ih]
      omega

theorem bloopE_stExt (f : ℚ → ℚ) (g : ℚ) (a b : Option ℚ) :
    ∀ (n : ℕ) (s : Tup6) (st : ESt), StExt st (bloopE f g a b n s st).2 := by
  intro n
  induction n with
  | zero => intro s st; exact stExt_refl st
  | succ m ih =>
    intro s st
    rw [bloopE_succ]
    split
    · exact stExt_refl st
    · exact stExt_trans (stExt_fcall f _ st) (ih _ _)

/-! ### Bounds and clamping lemmas -/

theorem lbLt_of_lbLe_ne {a : Option ℚ} {x : ℚ} (h : lbLe a x) (hne : a ≠ some x) :
    lbLt a x := by
  cases a with
  | none => trivial
  | some av =>
    refine lt_of_le_of_ne h ?_
    intro hx
    exact hne (by rw [hx])

theorem ubLt_of_ubLe_ne {x : ℚ} {b : Option ℚ} (h : ubLe x b) (hne : b ≠ some x) :
    ubLt x b := by
  cases b with
  | none => trivial
  | some bv =>
    refine lt_of_le_of_ne h ?_
    intro hx
    exact hne (by rw [hx])

theorem abLe_of_mem {a b : Option ℚ} {x : ℚ} (h1 : lbLe a x) (h2 : ubLe x b) :
    abLe a b := by
  cases a with
  | none => trivial
  | some av =>
    cases b with
    | none => trivial
    | some bv => exact le_trans h1 h2

theorem ensure_lbLe (v : ℚ) (a b : Option ℚ) : lbLe a (ensure_boundary v a b) := by
  cases a with
  | none => trivial
  | some av => exact le_max_right _ _

theorem ensure_ubLe (v : ℚ) {a b : Option ℚ} (hab : abLe a b) :
    ubLe (ensure_boundary v a b) b := by
  cases b with
  | none => trivial
  | some bv =>
    cases a with
    | none => exact min_le_right _ _
    | some av => exact max_le (min_le_right _ _) hab

theorem ensure_gt_of_lt {a b : Option ℚ} {x v : ℚ}
    (ha : lbLt a x) (hb : ubLt x b) (hv : x < v) :
    x < ensure_boundary v a b := by
  cases b with
  | none =>
    cases a with
    | none => exact hv
    | some av => exact lt_max_of_lt_left hv
  | some bv =>
    have hmin : x < min v bv := lt_min hv hb
    cases a with
    | none => exact hmin
    | some av => exact lt_max_of_lt_left hmin

theorem ensure_lt_of_gt {a b : Option ℚ} {x v : ℚ}
    (ha : lbLt a x) (hb : ubLt x b) (hv : v < x) :
    ensure_boundary v a b < x := by
  cases b with
  | none =>
    cases a with
    | none => exact hv
    | some av => exact max_lt hv ha
  | some bv =>
    have hmin : min v bv < x := min_lt_of_left_lt hv
    cases a with
    | none => exact hmin
    | some av => exact max_lt hmin ha

theorem midpoint_mem_left {x y : ℚ} (h : x ≤ y) : x ≤ x / 2 + y / 2 := by
  linarith

theorem midpoint_mem_right {x y : ℚ} (h : x ≤ y) : x / 2 + y / 2 ≤ y := by
  linarith

theorem midpoint_lt_left {x y : ℚ} (h : x < y) : x < x / 2 + y / 2 := by
  linarith

theorem midpoint_lt_right {x y : ℚ} (h : x < y) : x / 2 + y / 2 < y := by
  linarith

/-! ### Sorting lemmas -/

theorem sortTriple_valid (t : Tup6) : validT (sortTriple t) ↔ validT t := by
  unfold sortTriple validT
  split
  · exact ⟨fun h => ⟨h.2, h.1⟩, fun h => ⟨h.2, h.1⟩⟩
  · exact Iff.rfl

theorem sortTriple_asc {t : Tup6} (h : Ordered3 t) :
    (sortTriple t).x0 < (sortTriple t).x1 ∧ (sortTriple t).x1 < (sortTriple t).x2 := by
  unfold sortTriple
  rcases h with h | h
  · rw [if_neg (by exact not_lt.mpr (le_of_lt (lt_trans h.1 h.2)))]
    exact h
  · rw [if_pos (lt_trans h.1 h.2)]
    exact ⟨h.1, h.2⟩

theorem sortTriple_weak {t : Tup6}
    (h : (t.x0 ≤ t.x1 ∧ t.x1 ≤ t.x2) ∨ (t.x2 ≤ t.x1 ∧ t.x1 ≤ t.x0)) :
    (sortTriple t).x0 ≤ (sortTriple t).x1 ∧ (sortTriple t).x1 ≤ (sortTriple t).x2 := by
  unfold sortTriple
  split
  · rename_i hc
    rcases h with h | h
    · exact absurd (le_trans h.1 h.2) (not_le.mpr hc)
    · exact h
  · rcases h with h | h
    · exact h
    · rename_i hc
      have hx : t.x0 ≤ t.x2 := not_lt.mp hc
      exact ⟨le_trans hx h.1, le_trans h.2 hx⟩

theorem sortTriple_mem {t : Tup6} {a b : Option ℚ}
    (h0 : lbLe a t.x0 ∧ ubLe t.x0 b) (h1 : lbLe a t.x1 ∧ ubLe t.x1 b)
    (h2 : lbLe a t.x2 ∧ ubLe t.x2 b) :
    (lbLe a (sortTriple t).x0 ∧ ubLe (sortTriple t).x0 b) ∧
    (lbLe a (sortTriple t).x1 ∧ ubLe (sortTriple t).x1 b) ∧
    (lbLe a (sortTriple t).x2 ∧ ubLe (sortTriple t).x2 b) := by
  unfold sortTriple
  split
  · exact ⟨h2, h1, h0⟩
  · exact ⟨h0, h1, h2⟩

/-! ### Loop invariant -/

theorem step_preserves_inv {f : ℚ → ℚ} {g : ℚ} {a b : Option ℚ} {s : Tup6}
    (hg : 1 < g) (hinv : LoopInv a b s) (hin : boundary_inside s.x2 a b) :
    LoopInv a b ⟨s.x1, s.x2, ensure_boundary (step_candidate g s.x1 s.x2) a b,
      s.f1, s.f2, f (ensure_boundary (step_candidate g s.x1 s.x2) a b)⟩ := by
  obtain ⟨hb0, hb1, hb2, hord⟩ := hinv
  have hab : abLe a b := abLe_of_mem hb2.1 hb2.2
  have hxt_lb : lbLe a (ensure_boundary (step_candidate g s.x1 s.x2) a b) :=
    ensure_lbLe _ a b
  have hxt_ub : ubLe (ensure_boundary (step_candidate g s.x1 s.x2) a b) b :=
    ensure_ubLe _ hab
  rcases hord with hasc | hdesc
  · have hcand : s.x2 < step_candidate g s.x1 s.x2 := by
      unfold step_candidate
      nlinarith [hasc.2]
    have hxt : s.x2 < ensure_boundary (step_candidate g s.x1 s.x2) a b :=
      ensure_gt_of_lt hin.1 hin.2 hcand
    exact ⟨hb1, hb2, ⟨hxt_lb, hxt_ub⟩, Or.inl ⟨hasc.2, hxt⟩⟩
  · have hcand : step_candidate g s.x1 s.x2 < s.x2 := by
      unfold step_candidate
      nlinarith [hdesc.1]
    have hxt : ensure_boundary (step_candidate g s.x1 s.x2) a b < s.x2 :=
      ensure_lt_of_gt hin.1 hin.2 hcand
    exact ⟨hb1, hb2, ⟨hxt_lb, hxt_ub⟩, Or.inr ⟨hxt, hdesc.1⟩⟩

theorem bloopE_inv {f : ℚ → ℚ} {g : ℚ} {a b : Option ℚ} (hg : 1 < g) :
    ∀ (n : ℕ) (s : Tup6) (st : ESt),
      LoopInv a b s → LoopInv a b (bloopE f g a b n s st).1.1 := by
  intro n
  induction n with
  | zero => intro s st h; exact h
  | succ m ih =>
    intro s st h
    rw [bloopE_succ]
    split
    · exact h
    · rename_i hng
      have hin : boundary_inside s.x2 a b := by
        by_contra hc
        exact hng (Or.inr hc)
      exact ih _ _ (step_preserves_inv hg h hin)

/-! ### More bound-transfer lemmas -/

theorem lbLe_trans {a : Option ℚ} {x y : ℚ} (h1 : lbLe a x) (h2 : x ≤ y) : lbLe a y := by
  cases a with
  | none => trivial
  | some av => exact le_trans h1 h2

theorem ubLe_trans {x y : ℚ} {b : Option ℚ} (h1 : x ≤ y) (h2 : ubLe y b) : ubLe x b := by
  cases b with
  | none => trivial
  | some bv => exact le_trans h1 h2

theorem lbLe_min {a : Option ℚ} {x y : ℚ} (h1 : lbLe a x) (h2 : lbLe a y) :
    lbLe a (min x y) := by
  cases a with
  | none => trivial
  | some av => exact le_min h1 h2

theorem ubLe_max {x y : ℚ} {b : Option ℚ} (h1 : ubLe x b) (h2 : ubLe y b) :
    ubLe (max x y) b := by
  cases b with
  | none => trivial
  | some bv => exact max_le h1 h2

/-! ### The equal-function-value resolution -/

theorem resolve_eq (f : ℚ → ℚ) (x0 x1 f0 f1 : ℚ) (st : ESt) :
    resolve_equal_fvalue f x0 x1 f0 f1 st =
      ((sortTriple ⟨x0, x0 / 2 + x1 / 2, x1, f0, f (x0 / 2 + x1 / 2), f1⟩,
        if ¬ (f0 > f (x0 / 2 + x1 / 2) ∧ f (x0 / 2 + x1 / 2) < f1) then 5 else 1),
       (st.1 + 1, st.2 ++ [x0 / 2 + x1 / 2])) :=
  rfl

theorem resolve_found {f : ℚ → ℚ} {x0 x1 f0 f1 : ℚ} {st : ESt}
    (hf0 : f0 = f x0) (hf1 : f1 = f x1)
    (h : (resolve_equal_fvalue f x0 x1 f0 f1 st).1.2 = 1) :
    validT (resolve_equal_fvalue f x0 x1 f0 f1 st).1.1 ∧
    (resolve_equal_fvalue f x0 x1 f0 f1 st).1.1.x0 <
      (resolve_equal_fvalue f x0 x1 f0 f1 st).1.1.x1 ∧
    (resolve_equal_fvalue f x0 x1 f0 f1 st).1.1.x1 <
      (resolve_equal_fvalue f x0 x1 f0 f1 st).1.1.x2 ∧
    min x0 x1 ≤ (resolve_equal_fvalue f x0 x1 f0 f1 st).1.1.x0 ∧
    (resolve_equal_fvalue f x0 x1 f0 f1 st).1.1.x2 ≤ max x0 x1 := by
  have h' : (if ¬ (f0 > f (x0 / 2 + x1 / 2) ∧ f (x0 / 2 + x1 / 2) < f1) then (5 : ℕ)
      else 1) = 1 := h
  have hC : f0 > f (x0 / 2 + x1 / 2) ∧ f (x0 / 2 + x1 / 2) < f1 := by
    by_contra hc
    rw [if_pos hc] at h'
    exact absurd h' (by norm_num)
  have hne : x0 ≠ x1 := by
    intro he
    have hm : x0 / 2 + x1 / 2 = x0 := by rw [← he]; ring
    rw [hm, ← hf0] at hC
    exact lt_irrefl f0 hC.1
  have ht : (resolve_equal_fvalue f x0 x1 f0 f1 st).1.1
      = sortTriple ⟨x0, x0 / 2 + x1 / 2, x1, f0, f (x0 / 2 + x1 / 2), f1⟩ := rfl
  have hord : Ordered3 ⟨x0, x0 / 2 + x1 / 2, x1, f0, f (x0 / 2 + x1 / 2), f1⟩ := by
    rcases lt_or_gt_of_ne hne with hlt | hgt
    · exact Or.inl ⟨midpoint_lt_left hlt, midpoint_lt_right hlt⟩
    · exact Or.inr ⟨by dsimp only; linarith, by dsimp only; linarith⟩
  have hmm : min x0 x1 ≤ x0 / 2 + x1 / 2 ∧ x0 / 2 + x1 / 2 ≤ max x0 x1 := by
    rcases le_total x0 x1 with hle | hle
    · rw [min_eq_left hle, max_eq_right hle]
      constructor <;> linarith
    · rw [min_eq_right hle, max_eq_left hle]
      constructor <;> linarith
  have hmem := sortTriple_mem (a := some (min x0 x1)) (b := some (max x0 x1))
    (t := ⟨x0, x0 / 2 + x1 / 2, x1, f0, f (x0 / 2 + x1 / 2), f1⟩)
    ⟨min_le_left _ _, le_max_left _ _⟩ ⟨hmm.1, hmm.2⟩
    ⟨min_le_right _ _, le_max_right _ _⟩
  have hasc := sortTriple_asc hord
  rw [ht]
  exact ⟨(sortTriple_valid _).mpr ⟨hC.1, hC.2⟩, hasc.1, hasc.2, hmem.1.1, hmem.2.2.2⟩

/-! ### Facts about the third point -/

theorem third_point_lbLe (x0 x1 : ℚ) (a b : Option ℚ) (g : ℚ) :
    lbLe a (third_point x0 x1 a b g) := by
  unfold third_point
  exact ensure_lbLe _ a b

theorem third_point_ubLe (x0 x1 : ℚ) {a b : Option ℚ} (g : ℚ) (hab : abLe a b) :
    ubLe (third_point x0 x1 a b g) b := by
  unfold third_point
  exact ensure_ubLe _ hab

theorem third_point_gt {x0 x1 g : ℚ} {a b : Option ℚ}
    (hg : 1 < g) (h01 : x0 < x1) (ha : lbLt a x1) (hb : ubLt x1 b) :
    x1 < third_point x0 x1 a b g := by
  unfold third_point
  apply ensure_gt_of_lt ha hb
  nlinarith

theorem third_point_lt {x0 x1 g : ℚ} {a b : Option ℚ}
    (hg : 1 < g) (h01 : x1 < x0) (ha : lbLt a x1) (hb : ubLt x1 b) :
    third_point x0 x1 a b g < x1 := by
  unfold third_point
  apply ensure_lt_of_gt ha hb
  nlinarith

/-! ### Master lemmas about the bracket body -/

/-- Entry state of the expansion loop, given that the `assert`s hold and
`x1` is not on a boundary. -/
theorem loop_entry_inv {x0 x1 f0 f1 fv2 : ℚ} {a b : Option ℚ} {g : ℚ}
    (hg : 1 < g)
    (hA : lbLe a x0 ∧ ubLe x0 b ∧ lbLe a x1 ∧ ubLe x1 b ∧ x0 ≠ x1 ∧ f0 ≠ f1)
    (hbe : ¬ boundary_equal x1 a b) :
    LoopInv a b ⟨x0, x1, third_point x0 x1 a b g, f0, f1, fv2⟩ := by
  obtain ⟨hb0l, hb0u, hb1l, hb1u, hne, _⟩ := hA
  have hab : abLe a b := abLe_of_mem hb1l hb1u
  have hbe' := not_or.mp hbe
  have ha1 : lbLt a x1 := lbLt_of_lbLe_ne hb1l hbe'.1
  have hb1 : ubLt x1 b := ubLt_of_ubLe_ne hb1u hbe'.2
  refine ⟨⟨hb0l, hb0u⟩, ⟨hb1l, hb1u⟩,
    ⟨third_point_lbLe x0 x1 a b g, third_point_ubLe x0 x1 g hab⟩, ?_⟩
  rcases lt_or_gt_of_ne hne with hlt | hgt
  · exact Or.inl ⟨hlt, third_point_gt hg hlt ha1 hb1⟩
  · exact Or.inr ⟨third_point_lt hg hgt ha1 hb1, hgt⟩

theorem bracketMain_found_facts {f : ℚ → ℚ} {x0 x1 f0 f1 : ℚ} {a b : Option ℚ}
    {g rtol atol : ℚ} {maxiter : ℕ} {st : ESt} {t : Tup6} {st' : ESt}
    (hg : 1 < g) (hf0 : f0 = f x0) (hf1 : f1 = f x1)
    (h : bracketMain f x0 x1 f0 f1 a b g rtol atol maxiter st = (some (t, 1), st')) :
    validT t ∧ t.x0 < t.x1 ∧ t.x1 < t.x2 ∧
    ((lbLe a x0 ∧ ubLe x0 b ∧ lbLe a x1 ∧ ubLe x1 b) → lbLe a t.x0 ∧ ubLe t.x2 b) := by
  simp only [bracketMain, fcall] at h
  split_ifs at h with h1 h2 h3 h4 h5 h6 h7
  · -- too-close: exit code 3
    simp only [Prod.mk.injEq, Option.some.injEq] at h
    exact absurd h.1.2 (by norm_num)
  · -- equal starting values: resolution by bisection
    simp only [Prod.mk.injEq, Option.some.injEq] at h
    have ht : (resolve_equal_fvalue f x0 x1 f0 f1 st).1.1 = t := by rw [h.1]
    have he : (resolve_equal_fvalue f x0 x1 f0 f1 st).1.2 = 1 := by rw [h.1]
    have hr := resolve_found hf0 hf1 he
    rw [ht] at hr
    refine ⟨hr.1, hr.2.1, hr.2.2.1, fun hb => ?_⟩
    exact ⟨lbLe_trans (lbLe_min hb.1 hb.2.2.1) hr.2.2.2.1,
      ubLe_trans hr.2.2.2.2 (ubLe_max hb.2.1 hb.2.2.2)⟩
  · -- `x1` on the boundary: exit code 2
    simp only [Prod.mk.injEq, Option.some.injEq] at h
    exact absurd h.1.2 (by norm_num)
  · -- equal values at `x1` and the third point: resolution by bisection
    simp only [Prod.mk.injEq, Option.some.injEq] at h
    have ht : (resolve_equal_fvalue f x1 (third_point x0 x1 a b g) f1
        (f (third_point x0 x1 a b g)) (st.1 + 1, st.2 ++ [third_point x0 x1 a b g])).1.1 = t := by
      rw [h.1]
    have he : (resolve_equal_fvalue f x1 (third_point x0 x1 a b g) f1
        (f (third_point x0 x1 a b g)) (st.1 + 1, st.2 ++ [third_point x0 x1 a b g])).1.2 = 1 := by
      rw [h.1]
    have hr := resolve_found hf1 rfl he
    rw [ht] at hr
    have hab : abLe a b := abLe_of_mem h3.1 h3.2.1
    refine ⟨hr.1, hr.2.1, hr.2.2.1, fun hb => ?_⟩
    exact ⟨lbLe_trans (lbLe_min h3.2.2.1 (third_point_lbLe x0 x1 a b g)) hr.2.2.2.1,
      ubLe_trans hr.2.2.2.2 (ubLe_max h3.2.2.2.1 (third_point_ubLe x0 x1 g hab))⟩
  · -- the expansion loop exited with a bracket: exit code 1
    simp only [Prod.mk.injEq, Option.some.injEq] at h
    obtain ⟨⟨hts, _⟩, _⟩ := h
    have hinv : LoopInv a b (bloopE f g a b maxiter ⟨x0, x1, third_point x0 x1 a b g, f0, f1,
        f (third_point x0 x1 a b g)⟩ (st.1 + 1, st.2 ++ [third_point x0 x1 a b g])).1.1 :=
      bloopE_inv hg _ _ _ (loop_entry_inv hg h3 h4)
    have hasc := sortTriple_asc hinv.2.2.2
    have hmem := sortTriple_mem hinv.1 hinv.2.1 hinv.2.2.1
    have hval := (sortTriple_valid _).mpr ⟨h6.1, h6.2⟩
    rw [hts] at hasc hmem hval
    exact ⟨hval, hasc.1, hasc.2, fun _ => ⟨hmem.1.1, hmem.2.2.2⟩⟩
  · -- the loop exhausted `maxiter`: exit code 4
    simp only [Prod.mk.injEq, Option.some.injEq] at h
    exact absurd h.1.2 (by norm_num)
  · -- the loop hit a boundary: exit code 2
    simp only [Prod.mk.injEq, Option.some.injEq] at h
    exact absurd h.1.2 (by norm_num)
  · -- an `assert` failed: no result at all
    simp only [Prod.mk.injEq] at h
    exact absurd h.1 (by simp)

theorem bracketMain_weakOrd {f : ℚ → ℚ} {x0 x1 f0 f1 : ℚ} {a b : Option ℚ}
    {g rtol atol : ℚ} {maxiter : ℕ} {st : ESt} {t : Tup6} {e : ℕ} {st' : ESt}
    (hg : 1 < g)
    (h : bracketMain f x0 x1 f0 f1 a b g rtol atol maxiter st = (some (t, e), st')) :
    t.x0 ≤ t.x1 ∧ t.x1 ≤ t.x2 := by
  have hdup : ∀ u v p q r : ℚ, (sortTriple ⟨u, v, v, p, q, r⟩).x0 ≤ (sortTriple ⟨u, v, v, p, q, r⟩).x1 ∧
      (sortTriple ⟨u, v, v, p, q, r⟩).x1 ≤ (sortTriple ⟨u, v, v, p, q, r⟩).x2 := by
    intro u v p q r
    apply sortTriple_weak
    rcases le_total u v with hle | hle
    · exact Or.inl ⟨hle, le_refl v⟩
    · exact Or.inr ⟨le_refl v, hle⟩
  have hres : ∀ (u v p : ℚ) (q : ℚ → ℚ) (w : ℚ) (stx : ESt),
      (resolve_equal_fvalue q u v p w stx).1.1.x0 ≤ (resolve_equal_fvalue q u v p w stx).1.1.x1 ∧
      (resolve_equal_fvalue q u v p w stx).1.1.x1 ≤ (resolve_equal_fvalue q u v p w stx).1.1.x2 := by
    intro u v p q w stx
    have ht : (resolve_equal_fvalue q u v p w stx).1.1
        = sortTriple ⟨u, u / 2 + v / 2, v, p, q (u / 2 + v / 2), w⟩ := rfl
    rw [ht]
    apply sortTriple_weak
    rcases le_total u v with hle | hle
    · exact Or.inl ⟨by dsimp only; linarith, by dsimp only; linarith⟩
    · exact Or.inr ⟨by dsimp only; linarith, by dsimp only; linarith⟩
  simp only [bracketMain, fcall] at h
  split_ifs at h with h1 h2 h3 h4 h5 h6 h7
  · simp only [Prod.mk.injEq, Option.some.injEq] at h
    rw [← h.1.1]
    exact hdup x0 x1 f0 f1 f1
  · simp only [Prod.mk.injEq, Option.some.injEq] at h
    have ht : (resolve_equal_fvalue f x0 x1 f0 f1 st).1.1 = t := by rw [h.1]
    rw [← ht]
    exact hres x0 x1 f0 f f1 st
  · simp only [Prod.mk.injEq, Option.some.injEq] at h
    rw [← h.1.1]
    exact hdup x0 x1 f0 f1 f1
  · simp only [Prod.mk.injEq, Option.some.injEq] at h
    have ht : (resolve_equal_fvalue f x1 (third_point x0 x1 a b g) f1
        (f (third_point x0 x1 a b g)) (st.1 + 1, st.2 ++ [third_point x0 x1 a b g])).1.1 = t := by
      rw [h.1]
    rw [← ht]
    exact hres x1 (third_point x0 x1 a b g) f1 f (f (third_point x0 x1 a b g)) _
  · simp only [Prod.mk.injEq, Option.some.injEq] at h
    obtain ⟨⟨hts, _⟩, _⟩ := h
    have hinv : LoopInv a b (bloopE f g a b maxiter ⟨x0, x1, third_point x0 x1 a b g, f0, f1,
        f (third_point x0 x1 a b g)⟩ (st.1 + 1, st.2 ++ [third_point x0 x1 a b g])).1.1 :=
      bloopE_inv hg _ _ _ (loop_entry_inv hg h3 h4)
    have hasc := sortTriple_asc hinv.2.2.2
    rw [hts] at hasc
    exact ⟨le_of_lt hasc.1, le_of_lt hasc.2⟩
  · simp only [Prod.mk.injEq, Option.some.injEq] at h
    obtain ⟨⟨hts, _⟩, _⟩ := h
    have hinv : LoopInv a b (bloopE f g a b maxiter ⟨x0, x1, third_point x0 x1 a b g, f0, f1,
        f (third_point x0 x1 a b g)⟩ (st.1 + 1, st.2 ++ [third_point x0 x1 a b g])).1.1 :=
      bloopE_inv hg _ _ _ (loop_entry_inv hg h3 h4)
    have hasc := sortTriple_asc hinv.2.2.2
    rw [hts] at hasc
    exact ⟨le_of_lt hasc.1, le_of_lt hasc.2⟩
  · simp only [Prod.mk.injEq, Option.some.injEq] at h
    obtain ⟨⟨hts, _⟩, _⟩ := h
    have hinv : LoopInv a b (bloopE f g a b maxiter ⟨x0, x1, third_point x0 x1 a b g, f0, f1,
        f (third_point x0 x1 a b g)⟩ (st.1 + 1, st.2 ++ [third_point x0 x1 a b g])).1.1 :=
      bloopE_inv hg _ _ _ (loop_entry_inv hg h3 h4)
    have hasc := sortTriple_asc hinv.2.2.2
    rw [hts] at hasc
    exact ⟨le_of_lt hasc.1, le_of_lt hasc.2⟩
  · simp only [Prod.mk.injEq] at h
    exact absurd h.1 (by simp)

/-! ### Evaluation counting for the bracket search -/

theorem bracketMain_stExt (f : ℚ → ℚ) (x0 x1 f0 f1 : ℚ) (a b : Option ℚ)
    (g rtol atol : ℚ) (maxiter : ℕ) (st : ESt) :
    StExt st (bracketMain f x0 x1 f0 f1 a b g rtol atol maxiter st).2 := by
  simp only [bracketMain, fcall]
  split_ifs with h1 h2 h3 h4 h5 h6 h7
  · exact stExt_refl st
  · exact stExt_resolve f x0 x1 f0 f1 st
  · exact stExt_refl st
  · exact stExt_trans (stExt_fcall f (third_point x0 x1 a b g) st)
      (stExt_resolve f x1 (third_point x0 x1 a b g) f1 (f (third_point x0 x1 a b g)) _)
  · exact stExt_trans (stExt_fcall f (third_point x0 x1 a b g) st)
      (bloopE_stExt f g a b maxiter _ _)
  · exact stExt_trans (stExt_fcall f (third_point x0 x1 a b g) st)
      (bloopE_stExt f g a b maxiter _ _)
  · exact stExt_trans (stExt_fcall f (third_point x0 x1 a b g) st)
      (bloopE_stExt f g a b maxiter _ _)
  · exact stExt_refl st

theorem bracketMain_count_le {f : ℚ → ℚ} {x0 x1 f0 f1 : ℚ} {a b : Option ℚ}
    {g rtol atol : ℚ} {maxiter : ℕ} {st : ESt} (hm : 0 < maxiter) :
    (bracketMain f x0 x1 f0 f1 a b g rtol atol maxiter st).2.1 ≤ st.1 + maxiter + 1 := by
  have hloop : (bloopE f g a b maxiter
      ⟨x0, x1, third_point x0 x1 a b g, f0, f1, f (third_point x0 x1 a b g)⟩
      (st.1 + 1, st.2 ++ [third_point x0 x1 a b g])).2.1 ≤ st.1 + maxiter + 1 := by
    rw [bloopE_count]
    have := bloopE_nit_le f g a b maxiter
      ⟨x0, x1, third_point x0 x1 a b g, f0, f1, f (third_point x0 x1 a b g)⟩
      (st.1 + 1, st.2 ++ [third_point x0 x1 a b g])
    simp only
    omega
  simp only [bracketMain, fcall]
  split_ifs with h1 h2 h3 h4 h5 h6 h7
  · dsimp only
    omega
  · rw [resolve_count]
    omega
  · dsimp only
    omega
  · rw [resolve_count]
    simp only
    omega
  · exact hloop
  · exact hloop
  · exact hloop
  · dsimp only
    omega

theorem bracketE_stExt (f : ℚ → ℚ) (x0 x1 : Option ℚ) (a b : Option ℚ)
    (g rtol atol : ℚ) (maxiter : ℕ) (st : ESt) :
    StExt st (bracketE f x0 x1 a b g rtol atol maxiter st).2 := by
  simp only [bracketE, fcall]
  split_ifs with h1 h2
  · exact stExt_trans (stExt_fcall f _ st)
      (stExt_trans (stExt_fcall f _ _) (bracketMain_stExt f _ _ _ _ a b g rtol atol maxiter _))
  · exact stExt_trans (stExt_fcall f _ st)
      (stExt_trans (stExt_fcall f _ _) (bracketMain_stExt f _ _ _ _ a b g rtol atol maxiter _))
  · exact stExt_refl st

theorem bracketE_count_le (f : ℚ → ℚ) (x0 x1 : Option ℚ) (a b : Option ℚ)
    (g rtol atol : ℚ) (maxiter : ℕ) (st : ESt) :
    (bracketE f x0 x1 a b g rtol atol maxiter st).2.1 ≤ st.1 + maxiter + 3 := by
  simp only [bracketE, fcall]
  split_ifs with h1 h2
  · have := @bracketMain_count_le f
      (init_interval x0 x1 a b g rtol atol).2
      (init_interval x0 x1 a b g rtol atol).1
      (f (init_interval x0 x1 a b g rtol atol).2)
      (f (init_interval x0 x1 a b g rtol atol).1)
      a b g rtol atol maxiter
      (st.1 + 1 + 1, st.2 ++ [(init_interval x0 x1 a b g rtol atol).1]
        ++ [(init_interval x0 x1 a b g rtol atol).2]) h1.2
    simp only at this ⊢
    omega
  · have := @bracketMain_count_le f
      (init_interval x0 x1 a b g rtol atol).1
      (init_interval x0 x1 a b g rtol atol).2
      (f (init_interval x0 x1 a b g rtol atol).1)
      (f (init_interval x0 x1 a b g rtol atol).2)
      a b g rtol atol maxiter
      (st.1 + 1 + 1, st.2 ++ [(init_interval x0 x1 a b g rtol atol).1]
        ++ [(init_interval x0 x1 a b g rtol atol).2]) h1.2
    simp only at this ⊢
    omega
  · dsimp only
    omega

theorem bracketE_some_count {f : ℚ → ℚ} {x0 x1 : Option ℚ} {a b : Option ℚ}
    {g rtol atol : ℚ} {maxiter : ℕ} {st : ESt} {r : Tup6 × ℕ}
    (h : (bracketE f x0 x1 a b g rtol atol maxiter st).1 = some r) :
    st.1 + 2 ≤ (bracketE f x0 x1 a b g rtol atol maxiter st).2.1 := by
  by_cases h1 : 1 < g ∧ 0 < maxiter
  · simp only [bracketE, fcall, if_pos h1]
    split_ifs with h2
    · have := stExt_count_le (bracketMain_stExt f
        (init_interval x0 x1 a b g rtol atol).2 (init_interval x0 x1 a b g rtol atol).1
        (f (init_interval x0 x1 a b g rtol atol).2) (f (init_interval x0 x1 a b g rtol atol).1)
        a b g rtol atol maxiter
        (st.1 + 1 + 1, st.2 ++ [(init_interval x0 x1 a b g rtol atol).1]
          ++ [(init_interval x0 x1 a b g rtol atol).2]))
      simp only at this ⊢
      omega
    · have := stExt_count_le (bracketMain_stExt f
        (init_interval x0 x1 a b g rtol atol).1 (init_interval x0 x1 a b g rtol atol).2
        (f (init_interval x0 x1 a b g rtol atol).1) (f (init_interval x0 x1 a b g rtol atol).2)
        a b g rtol atol maxiter
        (st.1 + 1 + 1, st.2 ++ [(init_interval x0 x1 a b g rtol atol).1]
          ++ [(init_interval x0 x1 a b g rtol atol).2]))
      simp only at this ⊢
      omega
  · rw [bracketE, if_neg h1] at h
    exact absurd h (by simp)

/-! ### Bounds of the initialized interval -/

theorem clampZero_mem {a b : Option ℚ} (hab : abLe a b) :
    lbLe a (clampZero a b) ∧ ubLe (clampZero a b) b := by
  cases a with
  | none =>
    cases b with
    | none => exact ⟨trivial, trivial⟩
    | some bv => exact ⟨trivial, min_le_right _ _⟩
  | some av =>
    cases b with
    | none => exact ⟨le_max_right _ _, trivial⟩
    | some bv => exact ⟨le_min (le_max_right _ _) hab, min_le_right _ _⟩

theorem derive_second_mem {x0 : ℚ} {a b : Option ℚ} {g rtol atol : ℚ}
    (hg : 1 < g) (hrt : 0 ≤ rtol) (hat : 0 ≤ atol) (hab : abLe a b)
    (hx : lbLe a x0 ∧ ubLe x0 b) :
    lbLe a (derive_second x0 a b g rtol atol) ∧
    ubLe (derive_second x0 a b g rtol atol) b := by
  have htol : 0 ≤ 10 * g * tol x0 rtol atol := by
    unfold tol
    have h1 : 0 ≤ |x0| * rtol := mul_nonneg (abs_nonneg _) hrt
    nlinarith
  unfold derive_second
  split_ifs with hlr
  · constructor
    · cases a with
      | none => trivial
      | some av => exact le_max_right _ _
    · cases b with
      | none => trivial
      | some bv =>
        cases a with
        | none =>
          exact le_trans (show x0 - 10 * g * tol x0 rtol atol ≤ x0 by linarith) hx.2
        | some av => exact max_le (le_trans (by linarith) hx.2) hab
  · constructor
    · cases a with
      | none => trivial
      | some av =>
        cases b with
        | none =>
          exact le_trans hx.1 (show x0 ≤ x0 + 10 * g * tol x0 rtol atol by linarith)
        | some bv => exact le_min (le_trans hx.1 (by linarith)) hab
    · cases b with
      | none => trivial
      | some bv => exact min_le_right _ _

theorem init_interval_mem {x0o x1o : Option ℚ} {a b : Option ℚ} {g rtol atol : ℚ}
    (hg : 1 < g) (hrt : 0 ≤ rtol) (hat : 0 ≤ atol) (hab : abLe a b)
    (hx0 : ∀ u, x0o = some u → lbLe a u ∧ ubLe u b)
    (hx1 : ∀ v, x1o = some v → lbLe a v ∧ ubLe v b) :
    (lbLe a (init_interval x0o x1o a b g rtol atol).1 ∧
      ubLe (init_interval x0o x1o a b g rtol atol).1 b) ∧
    (lbLe a (init_interval x0o x1o a b g rtol atol).2 ∧
      ubLe (init_interval x0o x1o a b g rtol atol).2 b) := by
  cases x0o with
  | none =>
    cases x1o with
    | none =>
      have hc := clampZero_mem (a := a) (b := b) hab
      exact ⟨hc, derive_second_mem hg hrt hat hab hc⟩
    | some v =>
      have hv := hx1 v rfl
      exact ⟨hv, hv⟩
  | some u =>
    have hu := hx0 u rfl
    cases x1o with
    | none => exact ⟨hu, derive_second_mem hg hrt hat hab hu⟩
    | some v =>
      have hv := hx1 v rfl
      exact ⟨⟨lbLe_min hu.1 hv.1, ubLe_trans (min_le_left u v) hu.2⟩,
        ⟨lbLe_trans hu.1 (le_max_left u v), ubLe_max hu.2 hv.2⟩⟩

/-! ### Claim C10 -/

/-- C10: for every input, `bracket` invokes the objective at most
`maxiter + 3` times: two initial evaluations, at most one third-point or
bisection evaluation each, and at most one evaluation per loop iteration. -/
theorem claim_C10 (f : ℚ → ℚ) (x0 x1 : Option ℚ) (a b : Option ℚ)
    (g rtol atol : ℚ) (maxiter : ℕ) :
    (bracketE f x0 x1 a b g rtol atol maxiter (0, [])).2.1 ≤ maxiter + 3 := by
  have h := bracketE_count_le f x0 x1 a b g rtol atol maxiter (0, [])
  simpa using h

/-! ### Claim C3 -/

/-- C3, amended: calling `bracket` with `gfactor ≤ 1` or `maxiter ≤ 0` fails
fast with an assertion before the objective is ever evaluated (the state is
returned unchanged); the bound inversion `a > b` is not checked at call
time. -/
theorem claim_C3 (f : ℚ → ℚ) (x0 x1 : Option ℚ) (a b : Option ℚ)
    (g rtol atol : ℚ) (maxiter : ℕ) (st : ESt)
    (h : g ≤ 1 ∨ maxiter = 0) :
    bracketE f x0 x1 a b g rtol atol maxiter st = (none, st) := by
  simp only [bracketE]
  rw [if_neg]
  rintro ⟨hg, hm⟩
  rcases h with h | h
  · exact absurd hg (not_lt.mpr h)
  · omega

theorem claim_C3_witness :
    ((1 : ℚ) ≤ 1 ∨ (500 : ℕ) = 0) ∧
    bracketE (fun x => x) none none none none 1 0 0 500 (0, []) = (none, (0, [])) :=
  ⟨Or.inl (le_refl 1),
    claim_C3 (fun x => x) none none none none 1 0 0 500 (0, []) (Or.inl (le_refl 1))⟩

/-! ### Claim C8 -/

/-- C8, amended: each expansion-loop step's candidate distance from the
previous pivot, before boundary clamping, strictly exceeds the prior step's
distance (`|step_candidate - x2| = gfactor * |x2 - x1| > |x2 - x1|`); the
realized, clamped point can be closer when it hits a boundary. -/
theorem claim_C8 {g x1 x2 : ℚ} (hg : 1 < g) (hne : x1 ≠ x2) :
    |x2 - x1| < |step_candidate g x1 x2 - x2| := by
  unfold step_candidate
  have h1 : x2 + g * (x2 - x1) - x2 = g * (x2 - x1) := by ring
  rw [h1, abs_mul]
  have h2 : 0 < |x2 - x1| := abs_pos.mpr (sub_ne_zero.mpr (Ne.symm hne))
  have h3 : 1 < |g| := lt_of_lt_of_le hg (le_abs_self g)
  nlinarith

theorem claim_C8_witness :
    (1 : ℚ) < 2 ∧ (0 : ℚ) ≠ 1 ∧ |(1 : ℚ) - 0| < |step_candidate 2 0 1 - 1| :=
  ⟨by norm_num, by norm_num, claim_C8 (by norm_num) (by norm_num)⟩

/-! ### Destructuring a successful bracket call -/

theorem bracket_elim {f : ℚ → ℚ} {x0o x1o : Option ℚ} {a b : Option ℚ}
    {g rtol atol : ℚ} {maxiter : ℕ} {r : Tup6 × ℕ}
    (h : bracket f x0o x1o a b g rtol atol maxiter = some r) (G : Prop)
    (hmain : ∀ (y0 y1 : ℚ) (st2 : ESt),
      (y0 = (init_interval x0o x1o a b g rtol atol).1 ∧
        y1 = (init_interval x0o x1o a b g rtol atol).2 ∨
       y0 = (init_interval x0o x1o a b g rtol atol).2 ∧
        y1 = (init_interval x0o x1o a b g rtol atol).1) →
      1 < g → 0 < maxiter →
      bracketMain f y0 y1 (f y0) (f y1) a b g rtol atol maxiter st2 =
        (some r, (bracketMain f y0 y1 (f y0) (f y1) a b g rtol atol maxiter st2).2) →
      G) : G := by
  unfold bracket bracketE at h
  by_cases h1 : 1 < g ∧ 0 < maxiter
  · rw [if_pos h1] at h
    simp only [fcall] at h
    split_ifs at h with hswap
    · exact hmain _ _ _ (Or.inr ⟨rfl, rfl⟩) h1.1 h1.2 (by rw [← h])
    · exact hmain _ _ _ (Or.inl ⟨rfl, rfl⟩) h1.1 h1.2 (by rw [← h])
  · rw [if_neg h1] at h
    simp at h

/-! ### Claim C9 -/

/-- C9: whenever `bracket` returns exit code 1 ("found"), the returned
function values satisfy `f0 > f1 < f2` — for every objective and every
accepted input, convex or not. -/
theorem claim_C9 (f : ℚ → ℚ) (x0 x1 : Option ℚ) (a b : Option ℚ)
    (g rtol atol : ℚ) (maxiter : ℕ) (t : Tup6)
    (h : bracket f x0 x1 a b g rtol atol maxiter = some (t, 1)) :
    t.f0 > t.f1 ∧ t.f1 < t.f2 := by
  refine bracket_elim h _ ?_
  intro y0 y1 st2 hy hg hm hmain
  exact (bracketMain_found_facts hg rfl rfl hmain).1

/-! ### Claim C4 -/

/-- C4, amended: every triple returned by `bracket`, under every exit
status, has weakly increasing abscissas `x0 ≤ x1 ≤ x2` (the degenerate
statuses duplicate a point, so the order is not strict in general); the
canonicalization step reverses the triple when the raw result has its first
abscissa greater than its last. -/
theorem claim_C4 (f : ℚ → ℚ) (x0 x1 : Option ℚ) (a b : Option ℚ)
    (g rtol atol : ℚ) (maxiter : ℕ) (t : Tup6) (e : ℕ)
    (h : bracket f x0 x1 a b g rtol atol maxiter = some (t, e)) :
    t.x0 ≤ t.x1 ∧ t.x1 ≤ t.x2 := by
  refine bracket_elim h _ ?_
  intro y0 y1 st2 hy hg hm hmain
  exact bracketMain_weakOrd hg hmain

/-! ### Claim C1 -/

/-- C1, amended: for every objective (strictly convex or not), bounds with
`a ≤ b`, nonnegative tolerances, and supplied starting points inside
`[a, b]`, whenever `bracket` returns status "found" the triple satisfies
`f0 > f1 < f2` and `a ≤ x0 < x1 < x2 ≤ b`.  (Strict convexity with an
interior minimum does not guarantee the "found" status itself: the clamped
geometric search can hit a boundary first, see the counterexample.) -/
theorem claim_C1 (f : ℚ → ℚ) (x0o x1o : Option ℚ) (a b : Option ℚ)
    (g rtol atol : ℚ) (maxiter : ℕ) (t : Tup6)
    (hrt : 0 ≤ rtol) (hat : 0 ≤ atol) (hab : abLe a b)
    (hx0 : ∀ u, x0o = some u → lbLe a u ∧ ubLe u b)
    (hx1 : ∀ v, x1o = some v → lbLe a v ∧ ubLe v b)
    (h : bracket f x0o x1o a b g rtol atol maxiter = some (t, 1)) :
    (t.f0 > t.f1 ∧ t.f1 < t.f2) ∧
    lbLe a t.x0 ∧ t.x0 < t.x1 ∧ t.x1 < t.x2 ∧ ubLe t.x2 b := by
  refine bracket_elim h _ ?_
  intro y0 y1 st2 hy hg hm hmain
  have hfacts := bracketMain_found_facts hg rfl rfl hmain
  have hmem := init_interval_mem hg hrt hat hab hx0 hx1
  have hy0 : lbLe a y0 ∧ ubLe y0 b := by
    rcases hy with ⟨h0, _⟩ | ⟨h0, _⟩ <;> rw [h0]
    · exact hmem.1
    · exact hmem.2
  have hy1 : lbLe a y1 ∧ ubLe y1 b := by
    rcases hy with ⟨_, h1⟩ | ⟨_, h1⟩ <;> rw [h1]
    · exact hmem.2
    · exact hmem.1
  have hb := hfacts.2.2.2 ⟨hy0.1, hy0.2, hy1.1, hy1.2⟩
  exact ⟨hfacts.1, hb.1, hfacts.2.1, hfacts.2.2.1, hb.2⟩

/-! ### Claim C7 -/

/-- C7: if, after reordering the two initial points so that
`f(x0) ≥ f(x1)`, they satisfy `|x0 - x1| < 2 * (|x0| * rtol + atol)`, then
`bracket` returns exit code 3 ("too-close") together with the collapsed
triple in which the second point is duplicated. -/
theorem claim_C7 (f : ℚ → ℚ) (u v : ℚ) (a b : Option ℚ) (g rtol atol : ℚ)
    (maxiter : ℕ) (y0 y1 : ℚ) (hg : 1 < g) (hm : 0 < maxiter)
    (hy : if f (min u v) < f (max u v) then y0 = max u v ∧ y1 = min u v
      else y0 = min u v ∧ y1 = max u v)
    (hclose : |y0 - y1| < 2 * tol y0 rtol atol) :
    bracket f (some u) (some v) a b g rtol atol maxiter =
      some (sortTriple ⟨y0, y1, y1, f y0, f y1, f y1⟩, 3) := by
  unfold bracket bracketE
  rw [if_pos ⟨hg, hm⟩]
  simp only [fcall, init_interval]
  split_ifs with hswap
  · rw [if_pos hswap] at hy
    obtain ⟨hy0, hy1⟩ := hy
    subst hy0
    subst hy1
    unfold bracketMain
    rw [if_pos hclose]
  · rw [if_neg hswap] at hy
    obtain ⟨hy0, hy1⟩ := hy
    subst hy0
    subst hy1
    unfold bracketMain
    rw [if_pos hclose]

theorem claim_C7_witness :
    (1 : ℚ) < 2 ∧ |(1 : ℚ) / 100 - 0| < 2 * tol (1 / 100) 0 1 ∧
    bracket (fun x => x) (some 0) (some (1 / 100)) none none 2 0 1 500 =
      some (sortTriple ⟨1 / 100, 0, 0, 1 / 100, 0, 0⟩, 3) := by
  have habs : |(1 : ℚ) / 100| = 1 / 100 := abs_of_nonneg (by norm_num)
  refine ⟨by norm_num, by norm_num [tol, habs], ?_⟩
  have h := claim_C7 (fun x => x) 0 (1 / 100) none none 2 0 1 500 (1 / 100) 0
    (by norm_num) (by norm_num) (by norm_num [min_def, max_def])
    (by norm_num [tol, habs])
  simpa [min_def, max_def] using h

/-! ### Claim C5 -/

/-- C5: whenever the two reordered starting points have equal function
values (and are not too close), `bracket` bisects them exactly, evaluates
the midpoint, and returns the sorted triple with exit code 1 ("found") if
it brackets a minimum and exit code 5 ("not-strictly-convex") otherwise. -/
theorem claim_C5 (f : ℚ → ℚ) (u v : ℚ) (a b : Option ℚ) (g rtol atol : ℚ)
    (maxiter : ℕ) (hg : 1 < g) (hm : 0 < maxiter) (heq : f u = f v)
    (hfar : ¬ |min u v - max u v| < 2 * tol (min u v) rtol atol) :
    bracket f (some u) (some v) a b g rtol atol maxiter =
      some (sortTriple ⟨min u v, min u v / 2 + max u v / 2, max u v,
          f (min u v), f (min u v / 2 + max u v / 2), f (max u v)⟩,
        if ¬ (f (min u v) > f (min u v / 2 + max u v / 2) ∧
            f (min u v / 2 + max u v / 2) < f (max u v)) then 5 else 1) := by
  have hmm : f (min u v) = f (max u v) := by
    rcases le_total u v with hle | hle
    · rw [min_eq_left hle, max_eq_right hle]
      exact heq
    · rw [min_eq_right hle, max_eq_left hle]
      exact heq.symm
  unfold bracket bracketE
  rw [if_pos ⟨hg, hm⟩]
  simp only [fcall, init_interval]
  rw [if_neg (by rw [hmm]; exact lt_irrefl _)]
  unfold bracketMain
  rw [if_neg hfar, if_pos hmm]
  rfl

theorem claim_C5_witness :
    ((fun _ => (0 : ℚ)) 0 = (fun _ => (0 : ℚ)) 1) ∧
    ¬ |min (0 : ℚ) 1 - max (0 : ℚ) 1| < 2 * tol (min (0 : ℚ) 1) bracket_eps bracket_eps ∧
    bracket (fun _ => (0 : ℚ)) (some 0) (some 1) none none 2 bracket_eps bracket_eps 500 =
      some (⟨0, 1 / 2, 1, 0, 0, 0⟩, 5) := by
  refine ⟨rfl, by norm_num [tol, bracket_eps, min_def, max_def], ?_⟩
  have h := claim_C5 (fun _ => (0 : ℚ)) 0 1 none none 2 bracket_eps bracket_eps 500
    (by norm_num) (by norm_num) rfl
    (by norm_num [tol, bracket_eps, min_def, max_def])
  norm_num [min_def, max_def, sortTriple] at h
  convert h using 2 <;> norm_num

/-- Counterexample to C3 as stated: the inverted bounds `a = 2 > 1 = b` are
not rejected at call time — the call returns normally with exit code 3
instead of failing a precondition check. -/
theorem claim_C3_cex :
    (1 : ℚ) < 2 ∧
    bracket (fun _ => (0 : ℚ)) none none (some 2) (some 1) 2 bracket_eps bracket_eps 500 =
      some (⟨1, 1, 1, 0, 0, 0⟩, 3) := by
  refine ⟨by norm_num, ?_⟩
  norm_num [bracket, bracketE, bracketMain, fcall, init_interval, clampZero, derive_second,
    leftRoomGreater, minUB, maxLB, sortTriple, tol, bracket_eps, min_def, max_def]

/-- Behaviour of the expansion loop on a strictly decreasing objective over
`[lo, hi]`: as long as enough fuel remains (measured geometrically), the
loop slides right until the clamped point reaches `hi`, never finds a
bracket, and uses strictly fewer iterations than the fuel. -/
theorem bloopE_decreasing (f : ℚ → ℚ) (g : ℚ) (lo hi : ℚ) (hg : 2 ≤ g)
    (hf : ∀ x y : ℚ, lo ≤ x → x < y → y ≤ hi → f y < f x) :
    ∀ (n : ℕ) (s : Tup6) (st : ESt),
      lo ≤ s.x0 → s.x0 < s.x1 → s.x1 < s.x2 → s.x2 ≤ hi →
      s.f1 = f s.x1 → s.f2 = f s.x2 →
      hi - s.x2 ≤ (2 ^ n - 1) * (s.x2 - s.x1) →
      (bloopE f g (some lo) (some hi) (n + 1) s st).1.1.x2 = hi ∧
      (bloopE f g (some lo) (some hi) (n + 1) s st).1.1.x0 <
        (bloopE f g (some lo) (some hi) (n + 1) s st).1.1.x1 ∧
      (bloopE f g (some lo) (some hi) (n + 1) s st).1.1.x1 <
        (bloopE f g (some lo) (some hi) (n + 1) s st).1.1.x2 ∧
      ¬ ((bloopE f g (some lo) (some hi) (n + 1) s st).1.1.f0 >
            (bloopE f g (some lo) (some hi) (n + 1) s st).1.1.f1 ∧
          (bloopE f g (some lo) (some hi) (n + 1) s st).1.1.f1 <
            (bloopE f g (some lo) (some hi) (n + 1) s st).1.1.f2) ∧
      (bloopE f g (some lo) (some hi) (n + 1) s st).1.2 ≤ n := by
  intro n
  induction n with
  | zero =>
    intro s st h0 h01 h12 h2hi hf1 hf2 hfuel
    have hx2 : s.x2 = hi := by nlinarith [hfuel]
    have hnf : ¬ (s.f0 > s.f1 ∧ s.f1 < s.f2) := by
      intro hc
      have hlt := hf s.x1 s.x2 (le_trans h0 (le_of_lt h01)) h12 h2hi
      rw [← hf1, ← hf2] at hlt
      exact absurd hc.2 (not_lt.mpr (le_of_lt hlt))
    have hguard : (s.f0 > s.f1 ∧ s.f1 < s.f2) ∨
        ¬ boundary_inside s.x2 (some lo) (some hi) := by
      right
      intro hin
      rw [hx2] at hin
      exact absurd hin.2 (lt_irrefl hi)
    rw [bloopE_stop f g (some lo) (some hi) s hguard 1 st]
    exact ⟨hx2, h01, h12, hnf, Nat.le_refl 0⟩
  | succ m ih =>
    intro s st h0 h01 h12 h2hi hf1 hf2 hfuel
    have hnf : ¬ (s.f0 > s.f1 ∧ s.f1 < s.f2) := by
      intro hc
      have hlt := hf s.x1 s.x2 (le_trans h0 (le_of_lt h01)) h12 h2hi
      rw [← hf1, ← hf2] at hlt
      exact absurd hc.2 (not_lt.mpr (le_of_lt hlt))
    by_cases hx2 : s.x2 = hi
    · have hguard : (s.f0 > s.f1 ∧ s.f1 < s.f2) ∨
          ¬ boundary_inside s.x2 (some lo) (some hi) := by
        right
        intro hin
        rw [hx2] at hin
        exact absurd hin.2 (lt_irrefl hi)
      rw [bloopE_stop f g (some lo) (some hi) s hguard (m + 1 + 1) st]
      exact ⟨hx2, h01, h12, hnf, Nat.zero_le _⟩
    · have hx2lt : s.x2 < hi := lt_of_le_of_ne h2hi hx2
      have hlo2 : lo < s.x2 := lt_trans (lt_of_le_of_lt h0 h01) h12
      have hguard : ¬ ((s.f0 > s.f1 ∧ s.f1 < s.f2) ∨
          ¬ boundary_inside s.x2 (some lo) (some hi)) := by
        rintro (hc | hc)
        · exact hnf hc
        · exact hc ⟨hlo2, hx2lt⟩
      rw [bloopE_go f g (some lo) (some hi) s hguard (m + 1) st]
      have hd : 0 < s.x2 - s.x1 := by linarith
      have hcand : s.x2 + 2 * (s.x2 - s.x1) ≤ step_candidate g s.x1 s.x2 := by
        unfold step_candidate
        nlinarith
      have hxt_eq : ensure_boundary (step_candidate g s.x1 s.x2) (some lo) (some hi) =
          min (step_candidate g s.x1 s.x2) hi := by
        unfold ensure_boundary minUB maxLB
        refine max_eq_left (le_of_lt ?_)
        refine lt_min ?_ (by linarith)
        calc lo < s.x2 := hlo2
          _ < step_candidate g s.x1 s.x2 := by unfold step_candidate; nlinarith
      have hxt_gt : s.x2 < ensure_boundary (step_candidate g s.x1 s.x2) (some lo) (some hi) := by
        rw [hxt_eq]
        refine lt_min ?_ hx2lt
        unfold step_candidate
        nlinarith
      have hxt_le : ensure_boundary (step_candidate g s.x1 s.x2) (some lo) (some hi) ≤ hi := by
        rw [hxt_eq]
        exact min_le_right _ _
      have hp2 : (0 : ℚ) < 2 ^ m := by positivity
      have hp1 : (1 : ℚ) ≤ 2 ^ m := by
        have hpp := pow_le_pow_right₀ (a := (2 : ℚ)) (by norm_num) (Nat.zero_le m)
        simpa using hpp
      have hps : (2 : ℚ) ^ (m + 1) = 2 * 2 ^ m := by
        rw [pow_succ]
        ring
      have hfuel2 : hi - ensure_boundary (step_candidate g s.x1 s.x2) (some lo) (some hi) ≤
          (2 ^ m - 1) *
            (ensure_boundary (step_candidate g s.x1 s.x2) (some lo) (some hi) - s.x2) := by
        rcases le_or_lt hi (step_candidate g s.x1 s.x2) with hch | hch
        · rw [hxt_eq, min_eq_right hch]
          nlinarith
        · rw [hxt_eq, min_eq_left (le_of_lt hch)]
          unfold step_candidate at hch ⊢
          nlinarith [hfuel]
      have hres := ih ⟨s.x1, s.x2,
          ensure_boundary (step_candidate g s.x1 s.x2) (some lo) (some hi), s.f1, s.f2,
          f (ensure_boundary (step_candidate g s.x1 s.x2) (some lo) (some hi))⟩
        (fcall f (ensure_boundary (step_candidate g s.x1 s.x2) (some lo) (some hi)) st).2
        (le_trans h0 (le_of_lt h01)) h12 hxt_gt hxt_le hf2 rfl hfuel2
      refine ⟨hres.1, hres.2.1, hres.2.2.1, hres.2.2.2.1, ?_⟩
      exact Nat.succ_le_succ hres.2.2.2.2

theorem fquad_loop :
    bloopE fquad 2 (some 0) (some 1) 500 ⟨0, 1/10, 3/10, 81/100, 16/25, 9/25⟩
      (3, [0, 1/10, 3/10]) =
    ((⟨3/10, 7/10, 1, 9/25, 1/25, 1/100⟩, 2), (5, [0, 1/10, 3/10, 7/10, 1])) := by
  rw [show (500:ℕ) = 499 + 1 from rfl,
    bloopE_go fquad 2 (some 0) (some 1) ⟨0, 1/10, 3/10, 81/100, 16/25, 9/25⟩
      (by norm_num [boundary_inside, lbLt, ubLt]) 499 (3, [0, 1/10, 3/10])]
  norm_num [step_candidate, ensure_boundary, minUB, maxLB, min_def, max_def, fquad, fcall]
  rw [show (499:ℕ) = 498 + 1 from rfl,
    bloopE_go fquad 2 (some 0) (some 1) ⟨1/10, 3/10, 7/10, 16/25, 9/25, 1/25⟩
      (by norm_num [boundary_inside, lbLt, ubLt]) 498 (4, [0, 1/10, 3/10, 7/10])]
  norm_num [step_candidate, ensure_boundary, minUB, maxLB, min_def, max_def, fquad, fcall]
  rw [bloopE_stop fquad 2 (some 0) (some 1) ⟨3/10, 7/10, 1, 9/25, 1/25, 1/100⟩
      (by norm_num [boundary_inside, lbLt, ubLt]) 498 (5, [0, 1/10, 3/10, 7/10, 1])]
  norm_num

theorem fquad_run :
    bracketE fquad (some 0) (some (1/10)) (some 0) (some 1) 2 0 (1/100) 500 (0, []) =
      (some (⟨3/10, 7/10, 1, 9/25, 1/25, 1/100⟩, 2), (5, [0, 1/10, 3/10, 7/10, 1])) := by
  have habs : |(0:ℚ) - 1/10| = 1/10 := by
    rw [abs_of_nonpos (by norm_num)]
    norm_num
  norm_num [bracketE, bracketMain, fcall, init_interval, fquad, tol, lbLe, ubLe,
    boundary_equal, third_point, ensure_boundary, minUB, maxLB, min_def, max_def, habs]
  rw [if_neg (by rw [show |(1:ℚ)/10| = 1/10 from abs_of_nonneg (by norm_num)]; norm_num),
    fquad_loop]
  norm_num [sortTriple]

/-- Counterexample to C1 as stated: `fquad` is strictly midpoint-convex on
`[0, 1]` with its unique minimum `9/10` strictly inside the bounds, the
supplied starting points lie in `[0, 1]`, yet `bracket` returns exit
code 2 ("hit-boundary"), not 1 ("found"): the last geometric step is
clamped to the upper bound before the bracket closes. -/
theorem claim_C1_cex :
    (∀ x y : ℚ, 0 ≤ x → x < y → y ≤ 1 → fquad ((x + y) / 2) < (fquad x + fquad y) / 2) ∧
    ((0 : ℚ) < 9 / 10 ∧ (9 : ℚ) / 10 < 1 ∧
      ∀ y : ℚ, 0 ≤ y → y ≤ 1 → y ≠ 9 / 10 → fquad (9 / 10) < fquad y) ∧
    bracket fquad (some 0) (some (1 / 10)) (some 0) (some 1) 2 0 (1 / 100) 500 =
      some (⟨3 / 10, 7 / 10, 1, 9 / 25, 1 / 25, 1 / 100⟩, 2) := by
  refine ⟨?_, ⟨by norm_num, by norm_num, ?_⟩, ?_⟩
  · intro x y hx hxy hy
    unfold fquad
    nlinarith [sq_nonneg (x - y)]
  · intro y h0 h1 hne
    have h2 : y - 9 / 10 ≠ 0 := sub_ne_zero.mpr hne
    have h3 : 0 < (y - 9 / 10) ^ 2 :=
      lt_of_le_of_ne (sq_nonneg _) (Ne.symm (pow_ne_zero 2 h2))
    have h4 : fquad (9 / 10) = 0 := by unfold fquad; norm_num
    rw [h4]
    exact h3
  · unfold bracket
    rw [fquad_run]

/-- Counterexample to C8 as stated: in the concrete run of `bracket` on
`fquad` the evaluation trace is `[0, 1/10, 3/10, 7/10, 1]`; the last
expansion step moves from the pivot `7/10` to the clamped point `1`, a
distance of `3/10`, which does not exceed the prior step's distance
`|7/10 - 3/10| = 2/5`. -/
theorem claim_C8_cex :
    (bracketE fquad (some 0) (some (1 / 10)) (some 0) (some 1) 2 0 (1 / 100) 500 (0, [])).2.2 =
      [0, 1 / 10, 3 / 10, 7 / 10, 1] ∧
    ¬ |(7 : ℚ) / 10 - 3 / 10| < |(1 : ℚ) - 7 / 10| := by
  constructor
  · rw [fquad_run]
  · have h1 : |(7 : ℚ) / 10 - 3 / 10| = 2 / 5 := by
      rw [abs_of_nonneg (by norm_num)]
      norm_num
    have h2 : |(1 : ℚ) - 7 / 10| = 3 / 10 := by
      rw [abs_of_nonneg (by norm_num)]
      norm_num
    rw [h1, h2]
    norm_num

theorem claim_C9_witness :
    bracket (fun x => x * x) (some (-1)) (some 1) none none 2 0 0 500 =
      some (⟨-1, 0, 1, 1, 0, 1⟩, 1) ∧
    ((⟨-1, 0, 1, 1, 0, 1⟩ : Tup6).f0 > (⟨-1, 0, 1, 1, 0, 1⟩ : Tup6).f1 ∧
      (⟨-1, 0, 1, 1, 0, 1⟩ : Tup6).f1 < (⟨-1, 0, 1, 1, 0, 1⟩ : Tup6).f2) := by
  have habs : |(-1 : ℚ) - 1| = 2 := by
    rw [abs_of_nonpos (by norm_num)]
    norm_num
  have hrun : bracket (fun x => x * x) (some (-1)) (some 1) none none 2 0 0 500 =
      some (⟨-1, 0, 1, 1, 0, 1⟩, 1) := by
    norm_num [bracket, bracketE, bracketMain, fcall, init_interval, resolve_equal_fvalue,
      sortTriple, tol, lbLe, ubLe, boundary_equal, min_def, max_def, habs]
  exact ⟨hrun, claim_C9 _ _ _ _ _ _ _ _ _ _ hrun⟩

theorem claim_C4_witness :
    bracket (fun x => x * x) (some 1) (some 2) none none 2 0 0 500 =
      some (⟨-1, 0, 1, 1, 0, 1⟩, 1) ∧
    ((-1 : ℚ) ≤ 0 ∧ (0 : ℚ) ≤ 1) := by
  have habs : |(2 : ℚ) - 1| = 1 := by
    rw [abs_of_nonneg (by norm_num)]
    norm_num
  have hrun : bracket (fun x => x * x) (some 1) (some 2) none none 2 0 0 500 =
      some (⟨-1, 0, 1, 1, 0, 1⟩, 1) := by
    norm_num [bracket, bracketE, bracketMain, fcall, init_interval, resolve_equal_fvalue,
      sortTriple, tol, lbLe, ubLe, boundary_equal, third_point, ensure_boundary,
      minUB, maxLB, min_def, max_def, habs]
    rw [if_neg (fun hc => Option.noConfusion hc)]
  exact ⟨hrun, claim_C4 _ _ _ _ _ _ _ _ _ _ _ hrun⟩

set_option maxRecDepth 4000 in
/-- Counterexample to C4 as stated: a "too-close" return duplicates a
point, so the abscissas are not strictly increasing (`x1 = x2 = 1`). -/
theorem claim_C4_cex :
    bracket (fun _ => (0 : ℚ)) (some 0) (some 1) none none 2 0 1 500 =
      some (⟨0, 1, 1, 0, 0, 0⟩, 3) ∧
    ¬ ((0 : ℚ) < 1 ∧ (1 : ℚ) < 1) := by
  have habs : |(0 : ℚ) - 1| = 1 := by
    rw [abs_of_nonpos (by norm_num)]
    norm_num
  constructor
  · norm_num [bracket, bracketE, bracketMain, fcall, init_interval, sortTriple, tol,
      min_def, max_def, habs]
  · norm_num

theorem claim_C1_witness :
    abLe (some (0 : ℚ)) (some (1 : ℚ)) ∧
    bracket (fun x => (x - 1 / 2) * (x - 1 / 2)) (some 0) (some 1) (some 0) (some 1)
        2 0 0 500 =
      some (⟨0, 1 / 2, 1, 1 / 4, 0, 1 / 4⟩, 1) ∧
    (((1 : ℚ) / 4 > 0 ∧ (0 : ℚ) < 1 / 4) ∧
      lbLe (some (0 : ℚ)) (0 : ℚ) ∧ (0 : ℚ) < 1 / 2 ∧ (1 : ℚ) / 2 < 1 ∧
      ubLe (1 : ℚ) (some (1 : ℚ))) := by
  have habs : |(0 : ℚ) - 1| = 1 := by
    rw [abs_of_nonpos (by norm_num)]
    norm_num
  have hrun : bracket (fun x => (x - 1 / 2) * (x - 1 / 2)) (some 0) (some 1) (some 0)
      (some 1) 2 0 0 500 = some (⟨0, 1 / 2, 1, 1 / 4, 0, 1 / 4⟩, 1) := by
    norm_num [bracket, bracketE, bracketMain, fcall, init_interval, resolve_equal_fvalue,
      sortTriple, tol, lbLe, ubLe, boundary_equal, min_def, max_def, habs]
  have h := claim_C1 (fun x => (x - 1 / 2) * (x - 1 / 2)) (some 0) (some 1) (some 0)
    (some 1) 2 0 0 500 ⟨0, 1 / 2, 1, 1 / 4, 0, 1 / 4⟩ (le_refl 0) (le_refl 0)
    (by norm_num [abLe])
    (by intro u hu; injection hu with hu; rw [← hu]; exact ⟨le_refl 0, by norm_num [ubLe]⟩)
    (by intro v hv; injection hv with hv; rw [← hv]; exact ⟨by norm_num [lbLe], le_refl 1⟩)
    hrun
  exact ⟨by norm_num [abLe], hrun, h⟩

/-- C6: for every strictly decreasing objective on `[0, 1]`,
`bracket(f, a=0, b=1)` with the source's default starting points, growth
factor, tolerances and iteration budget returns exit code 2
("hit-boundary") with the outermost abscissa pinned to the upper bound
(`x2 = b = 1`; the default initialization searches rightward from 0). -/
theorem claim_C6 (f : ℚ → ℚ)
    (hf : ∀ x y : ℚ, 0 ≤ x → x < y → y ≤ 1 → f y < f x) :
    ∃ t : Tup6,
      bracket f none none (some 0) (some 1) 2 bracket_eps bracket_eps 500 = some (t, 2) ∧
      t.x2 = 1 := by
  have hs0 : init_interval none none (some 0) (some 1) 2 bracket_eps bracket_eps =
      (0, 5 / 16777216) := by
    norm_num [init_interval, clampZero, derive_second, leftRoomGreater, minUB, maxLB,
      tol, bracket_eps, min_def, max_def]
  have hlt01 : f (5 / 16777216) < f 0 :=
    hf 0 (5 / 16777216) (le_refl 0) (by norm_num) (by norm_num)
  have hlt13 : f (15 / 16777216) < f (5 / 16777216) :=
    hf (5 / 16777216) (15 / 16777216) (by norm_num) (by norm_num) (by norm_num)
  have h3p : third_point 0 (5 / 16777216) (some 0) (some 1) 2 = 15 / 16777216 := by
    norm_num [third_point, ensure_boundary, minUB, maxLB, min_def, max_def]
  unfold bracket bracketE
  rw [if_pos (show (1 : ℚ) < 2 ∧ (0 : ℕ) < 500 by norm_num)]
  simp only [fcall, hs0]
  rw [if_neg (not_lt.mpr (le_of_lt hlt01))]
  unfold bracketMain
  rw [if_neg (show ¬ |(0 : ℚ) - 5 / 16777216| <
      2 * tol 0 bracket_eps bracket_eps by
    rw [show |(0 : ℚ) - 5 / 16777216| = 5 / 16777216 from by
      rw [abs_of_nonpos (by norm_num)]; norm_num]
    norm_num [tol, bracket_eps])]
  rw [if_neg (ne_of_gt hlt01)]
  rw [if_pos (show lbLe (some 0) (0 : ℚ) ∧ ubLe (0 : ℚ) (some 1) ∧
      lbLe (some 0) ((5 : ℚ) / 16777216) ∧ ubLe ((5 : ℚ) / 16777216) (some 1) ∧
      (0 : ℚ) ≠ 5 / 16777216 ∧ f 0 ≠ f (5 / 16777216) from
    ⟨le_refl 0, by norm_num [ubLe], by norm_num [lbLe], by norm_num [ubLe],
      by norm_num, ne_of_gt hlt01⟩)]
  rw [if_neg (show ¬ boundary_equal ((5 : ℚ) / 16777216) (some 0) (some 1) by
    rintro (hc | hc) <;> (injection hc with hc; norm_num at hc))]
  simp only [h3p, fcall]
  rw [if_neg (ne_of_gt hlt13)]
  norm_num
  have hfuel : (1 : ℚ) - 15 / 16777216 ≤
      (2 ^ 499 - 1) * (15 / 16777216 - 5 / 16777216) := by
    have h24 : (2 : ℚ) ^ 24 ≤ 2 ^ 499 :=
      pow_le_pow_right₀ (by norm_num) (by norm_num)
    nlinarith [h24]
  have hrun := bloopE_decreasing f 2 0 1 (le_refl 2) hf 499
    ⟨0, 5 / 16777216, 15 / 16777216, f 0, f (5 / 16777216), f (15 / 16777216)⟩
    (3, [0, 5 / 16777216, 15 / 16777216])
    (le_refl 0) (by norm_num) (by norm_num) (by norm_num) rfl rfl hfuel
  norm_num at hrun
  obtain ⟨he2, ho1, ho2, hnf, hnit⟩ := hrun
  refine ⟨sortTriple (bloopE f 2 (some 0) (some 1) 500
      ⟨0, 5 / 16777216, 15 / 16777216, f 0, f (5 / 16777216), f (15 / 16777216)⟩
      (3, [0, 5 / 16777216, 15 / 16777216])).1.1, ⟨rfl, ?_⟩, ?_⟩
  · rw [if_neg (show ¬ _ from fun hc => absurd hc.2 (not_lt.mpr (hnf hc.1))),
      if_neg (by omega)]
  · unfold sortTriple
    rw [if_neg (not_lt.mpr (le_of_lt (lt_trans ho1 ho2)))]
    exact he2

theorem claim_C6_witness :
    (∀ x y : ℚ, 0 ≤ x → x < y → y ≤ 1 → ((1 : ℚ) - y) < 1 - x) ∧
    ∃ t : Tup6,
      bracket (fun x => 1 - x) none none (some 0) (some 1) 2 bracket_eps bracket_eps 500 =
        some (t, 2) ∧ t.x2 = 1 := by
  constructor
  · intro x y hx hxy hy
    linarith
  · exact claim_C6 (fun x => 1 - x) (fun x y hx hxy hy => by dsimp only; linarith)

/-! ### Evaluation counting for the Brent refiner and the orchestrator -/

theorem brentLoop_conv (f : ℚ → ℚ) (rtol atol : ℚ) (s : BrentSt)
    (h : |s.x - (s.a + s.b) / 2| ≤ 2 * tol s.x rtol atol - (s.b - s.a) / 2) :
    ∀ (n : ℕ) (st : ESt), brentLoop f rtol atol n s st = ((s.x, s.fx), st) := by
  intro n st
  cases n with
  | zero => rfl
  | succ m =>
    simp only [brentLoop]
    rw [if_pos h]

theorem brentLoop_stExt (f : ℚ → ℚ) (rtol atol : ℚ) :
    ∀ (n : ℕ) (s : BrentSt) (st : ESt), StExt st (brentLoop f rtol atol n s st).2 := by
  intro n
  induction n with
  | zero => intro s st; exact stExt_refl st
  | succ m ih =>
    intro s st
    simp only [brentLoop]
    split_ifs <;>
      first
        | exact stExt_refl st
        | exact stExt_trans (stExt_fcall f _ st) (ih _ _)

theorem brentE_stExt (f : ℚ → ℚ) (a b fa fb xm fm rtol atol : ℚ) (maxiter : ℕ)
    (st : ESt) : StExt st (brentE f a b fa fb xm fm rtol atol maxiter st).2 :=
  brentLoop_stExt f rtol atol maxiter _ st

theorem minimizeE_stExt (f : ℚ → ℚ) (x0 x1 : Option ℚ) (a b : Option ℚ)
    (g rtol atol : ℚ) (maxiter : ℕ) (st : ESt) :
    StExt st (minimizeE f x0 x1 a b g rtol atol maxiter st).2 := by
  unfold minimizeE
  rcases hbr : (bracketE f x0 x1 a b g rtol atol maxiter st).1 with _ | p
  · simp only [hbr]
    exact bracketE_stExt f x0 x1 a b g rtol atol maxiter st
  · rcases p with ⟨t, e⟩
    simp only [hbr]
    exact stExt_trans (bracketE_stExt f x0 x1 a b g rtol atol maxiter st)
      (brentE_stExt f t.x0 t.x2 t.f0 t.f2 t.x1 t.f1 rtol atol maxiter _)

theorem minimizeE_some_count {f : ℚ → ℚ} {x0 x1 : Option ℚ} {a b : Option ℚ}
    {g rtol atol : ℚ} {maxiter : ℕ} {st : ESt} {p : ℚ × ℚ}
    (h : (minimizeE f x0 x1 a b g rtol atol maxiter st).1 = some p) :
    st.1 + 2 ≤ (minimizeE f x0 x1 a b g rtol atol maxiter st).2.1 := by
  unfold minimizeE at h ⊢
  rcases hbr : (bracketE f x0 x1 a b g rtol atol maxiter st).1 with _ | q
  · simp only [hbr] at h
    exact absurd h (by simp)
  · rcases q with ⟨t, e⟩
    simp only [hbr] at h ⊢
    have h1 := bracketE_some_count hbr
    have h2 := stExt_count_le
      (brentE_stExt f t.x0 t.x2 t.f0 t.f2 t.x1 t.f1 rtol atol maxiter
        (bracketE f x0 x1 a b g rtol atol maxiter st).2)
    omega

/-! ### Claim C2 -/

/-- C2: for every terminating call, `minimize` returns a strictly positive
`n_evaluations` equal to the exact number of invocations of the wrapped
objective: the counter starts at 0 for the call, is incremented exactly
once per evaluation, and the returned value equals the length of the
evaluation trace. -/
theorem claim_C2 (f : ℚ → ℚ) (x0 x1 : Option ℚ) (a b : Option ℚ)
    (g rtol atol : ℚ) (maxiter : ℕ) (r : ℚ × ℚ × ℕ)
    (h : minimize f x0 x1 a b g rtol atol maxiter = some r) :
    0 < r.2.2 ∧
    r.2.2 = (minimizeE f x0 x1 a b g rtol atol maxiter (0, [])).2.2.length := by
  unfold minimize at h
  rcases hm : (minimizeE f x0 x1 a b g rtol atol maxiter (0, [])).1 with _ | p
  · simp only [hm] at h
    exact absurd h (by simp)
  · simp only [hm] at h
    have hr : r = (p.1, p.2, (minimizeE f x0 x1 a b g rtol atol maxiter (0, [])).2.1) :=
      (Option.some.inj h).symm
    have hcount := minimizeE_some_count hm
    have hbal := stExt_balanced (minimizeE_stExt f x0 x1 a b g rtol atol maxiter (0, []))
      (by rfl)
    rw [hr]
    simp only at hcount ⊢
    omega

theorem claim_C2_witness :
    minimize (fun x => x) (some 0) (some 1) none none 2 0 100 500 = some (0, 0, 2) ∧
    0 < (2 : ℕ) ∧
    (2 : ℕ) = (minimizeE (fun x => x) (some 0) (some 1) none none 2 0 100 500
      (0, [])).2.2.length := by
  have habs : |(1 : ℚ) - 0| = 1 := by
    rw [abs_of_nonneg (by norm_num)]
    norm_num
  have hbr : bracketE (fun x => x) (some 0) (some 1) none none 2 0 100 500 (0, []) =
      (some (⟨0, 0, 1, 0, 0, 1⟩, 3), (2, [0, 1])) := by
    norm_num [bracketE, bracketMain, fcall, init_interval, sortTriple, tol,
      min_def, max_def, habs]
  have habs2 : |(0 : ℚ) - (0 + 1) / 2| = 1 / 2 := by
    rw [abs_of_nonpos (by norm_num)]
    norm_num
  have habs3 : |(1 : ℚ) / 2| = 1 / 2 := abs_of_nonneg (by norm_num)
  have hminE : minimizeE (fun x => x) (some 0) (some 1) none none 2 0 100 500 (0, []) =
      (some (0, 0), (2, [0, 1])) := by
    unfold minimizeE
    simp only [hbr]
    unfold brentE
    rw [brentLoop_conv _ _ _ _ (by norm_num [tol, min_def, max_def, habs2, habs3]) 500 _]
  have hrun : minimize (fun x => x) (some 0) (some 1) none none 2 0 100 500 =
      some (0, 0, 2) := by
    unfold minimize
    simp only [hminE]
  refine ⟨hrun, ?_⟩
  have h := claim_C2 (fun x => x) (some 0) (some 1) none none 2 0 100 500 (0, 0, 2) hrun
  exact ⟨h.1, h.2⟩

end BrentSearch
